import Mathlib

/-!
FedShield file-token chaincode.

A shallow embedding of `chaincode/filetoken.go` (the `SmartContract` with its five
transactions `RegisterToken`, `GetToken`, `ValidateToken`, `RevokeToken`,
`GetAllTokens`) and the properties of its token ledger.

Modelling choices.

* The world state of the channel is a list of key/value pairs kept in key order,
  read with `getState` and written with `putState`.
* `encoding/json` is not part of the repository.  The stored value type `V` and the
  pair `json.Marshal` / `json.Unmarshal` are parameters (`Codec V`); the theorems
  that read a record back assume that unmarshalling a marshalled record returns it.
* The chaincode stub is not part of the repository either.  Each invocation gets a
  `TxContext` that says which stub calls fail, and the value `time.Now()` returns.
* A Go `error` result is `Option Error` (`none` is `nil`), a `(T, error)` result is
  `Except Error T`, and `ValidateToken` returns its `(bool, error)` pair as is.
  Every transaction also returns the world state it leaves behind.
-/

namespace FedShield

/-! ## Data model -/

/-- The record `FileToken`.  `FileSize` is a Go `int` (no arithmetic is done on it),
`Timestamp` is the instant of a `time.Time` in nanoseconds. -/
structure FileToken where
  Token : String
  FileName : String
  FileSize : Int
  ContentType : String
  Owner : String
  Timestamp : Int
  IsActive : Bool
deriving DecidableEq, Repr

/-- The errors the chaincode returns, one constructor per place an error is made. -/
inductive Error where
  /-- The call of `GetState` failed: "failed to read from world state: %v". -/
  | readFailed (cause : String)
  /-- The error "token %s already exists". -/
  | alreadyExists (token : String)
  /-- The error "token %s does not exist". -/
  | doesNotExist (token : String)
  /-- The error "only owner can revoke token". -/
  | onlyOwner
  /-- An error of `json.Marshal` or `json.Unmarshal`, returned unchanged. -/
  | json (cause : String)
  /-- An error of `PutState`, `GetStateByRange` or the iterator, returned unchanged. -/
  | stub (cause : String)
deriving DecidableEq, Repr

/-- The text of an error, as `fmt.Errorf` builds it. -/
def Error.message : Error → String
  | .readFailed cause => "failed to read from world state: " ++ cause
  | .alreadyExists token => "token " ++ token ++ " already exists"
  | .doesNotExist token => "token " ++ token ++ " does not exist"
  | .onlyOwner => "only owner can revoke token"
  | .json cause => cause
  | .stub cause => cause

/-- The functions `json.Marshal` and `json.Unmarshal` at type `FileToken`, over the
stored value type `V`. -/
structure Codec (V : Type) where
  Marshal : FileToken → Except String V
  Unmarshal : V → Except String FileToken

/-- Unmarshalling the bytes `json.Marshal` produced gives the record back. -/
def Codec.RoundTrip {V : Type} (c : Codec V) : Prop :=
  ∀ r bs, c.Marshal r = .ok bs → c.Unmarshal bs = .ok r

/-- The call `json.Marshal` succeeds on every record. -/
def Codec.Total {V : Type} (c : Codec V) : Prop :=
  ∀ r, ∃ bs, c.Marshal r = .ok bs

/-- A codec that stores the record itself. -/
def plainCodec : Codec FileToken where
  Marshal := fun r => .ok r
  Unmarshal := fun r => .ok r

/-! ## World state and stub -/

/-- The world state: key/value pairs, in key order. -/
abbrev World (V : Type) := List (String × V)

/-- The value stored under `key`, `none` when there is none (Go `nil`). -/
def getState {V : Type} : World V → String → Option V
  | [], _ => none
  | (k, v) :: rest, key => if k = key then some v else getState rest key

/-- The order of two strings as sequences of characters, compared by code point (the
order of their UTF-8 bytes). -/
def charsBefore : List Char → List Char → Bool
  | _, [] => false
  | [], _ :: _ => true
  | a :: as, b :: bs =>
    if a.toNat < b.toNat then true
    else if a.toNat = b.toNat then charsBefore as bs
    else false

/-- The key order of the world state: Go's `<` on strings. -/
def keyBefore (a b : String) : Bool := charsBefore a.data b.data

/-- Store `value` under `key`: overwrite the entry of `key`, or insert a new one at
its place in key order. -/
def putState {V : Type} : World V → String → V → World V
  | [], key, value => [(key, value)]
  | (k, v) :: rest, key, value =>
    if keyBefore k key then (k, v) :: putState rest key value
    else if k = key then (key, value) :: rest
    else (key, value) :: (k, v) :: rest

/-- What one invocation sees of its environment: for each stub call whether it fails
(and with which error), and the clock. -/
structure TxContext where
  /-- When set, `GetState(key)` fails with this error. -/
  getStateErr : String → Option String
  /-- When set, `PutState(key, _)` fails with this error. -/
  putStateErr : String → Option String
  /-- When set, `GetStateByRange("", "")` fails with this error. -/
  rangeErr : Option String
  /-- When set, the `i`-th call of `Next()` on the iterator fails with this error. -/
  nextErr : Nat → Option String
  /-- The value of `time.Now()`. -/
  now : Int

/-- A context in which every stub call succeeds, with the clock at `now`. -/
def TxContext.healthy (now : Int) : TxContext where
  getStateErr := fun _ => none
  putStateErr := fun _ => none
  rangeErr := none
  nextErr := fun _ => none
  now := now

/-- A context in which `GetState` fails with `getErr` and `PutState` with `putErr`,
when these are set, for every key. -/
def TxContext.faulty (getErr putErr : Option String) (now : Int) : TxContext where
  getStateErr := fun _ => getErr
  putStateErr := fun _ => putErr
  rangeErr := none
  nextErr := fun _ => none
  now := now

/-- The call `ctx.GetStub().GetState(key)`. -/
def TxContext.GetState {V : Type} (ctx : TxContext) (w : World V) (key : String) :
    Except String (Option V) :=
  match ctx.getStateErr key with
  | some err => .error err
  | none => .ok (getState w key)

/-- The call `ctx.GetStub().PutState(key, value)`: the new world state and the error. -/
def TxContext.PutState {V : Type} (ctx : TxContext) (w : World V) (key : String) (value : V) :
    World V × Option Error :=
  match ctx.putStateErr key with
  | some err => (w, some (.stub err))
  | none => (putState w key value, none)

/-! ## The transactions of `SmartContract` -/

/-- The transaction `RegisterToken`: stores file token metadata. -/
def RegisterToken {V : Type} (c : Codec V) (ctx : TxContext) (w : World V)
    (token fileName : String) (fileSize : Int) (contentType owner : String) :
    World V × Option Error :=
  match ctx.GetState w token with
  | .error err => (w, some (.readFailed err))
  | .ok (some _) => (w, some (.alreadyExists token))
  | .ok none =>
    let fileToken : FileToken :=
      { Token := token, FileName := fileName, FileSize := fileSize,
        ContentType := contentType, Owner := owner, Timestamp := ctx.now, IsActive := true }
    match c.Marshal fileToken with
    | .error err => (w, some (.json err))
    | .ok fileTokenJSON => ctx.PutState w token fileTokenJSON

/-- The transaction `GetToken`: retrieves token metadata. -/
def GetToken {V : Type} (c : Codec V) (ctx : TxContext) (w : World V) (token : String) :
    World V × Except Error FileToken :=
  match ctx.GetState w token with
  | .error err => (w, .error (.readFailed err))
  | .ok none => (w, .error (.doesNotExist token))
  | .ok (some fileTokenJSON) =>
    match c.Unmarshal fileTokenJSON with
    | .error err => (w, .error (.json err))
    | .ok fileToken => (w, .ok fileToken)

/-- The transaction `ValidateToken`: the pair `(bool, error)` it returns. -/
def ValidateToken {V : Type} (c : Codec V) (ctx : TxContext) (w : World V) (token : String) :
    World V × (Bool × Option Error) :=
  match GetToken c ctx w token with
  | (w1, .error err) => (w1, (false, some err))
  | (w1, .ok fileToken) => (w1, (fileToken.IsActive, none))

/-- The transaction `RevokeToken`: deactivates a token. -/
def RevokeToken {V : Type} (c : Codec V) (ctx : TxContext) (w : World V)
    (token owner : String) : World V × Option Error :=
  match GetToken c ctx w token with
  | (w1, .error err) => (w1, some err)
  | (w1, .ok fileToken) =>
    if fileToken.Owner ≠ owner then (w1, some .onlyOwner)
    else
      let fileToken := { fileToken with IsActive := false }
      match c.Marshal fileToken with
      | .error err => (w1, some (.json err))
      | .ok fileTokenJSON => ctx.PutState w1 token fileTokenJSON

/-- The loop of `GetAllTokens` over the iterator: `i` counts the calls of `Next()`,
`tokens` is the slice built so far. -/
def collectTokens {V : Type} (c : Codec V) (ctx : TxContext) :
    Nat → List (String × V) → List FileToken → Except Error (List FileToken)
  | _, [], tokens => .ok tokens
  | i, (_, value) :: rest, tokens =>
    match ctx.nextErr i with
    | some err => .error (.stub err)
    | none =>
      match c.Unmarshal value with
      | .error err => .error (.json err)
      | .ok token => collectTokens c ctx (i + 1) rest (tokens ++ [token])

/-- The transaction `GetAllTokens`: all records, in key order. -/
def GetAllTokens {V : Type} (c : Codec V) (ctx : TxContext) (w : World V) :
    World V × Except Error (List FileToken) :=
  match ctx.rangeErr with
  | some err => (w, .error (.stub err))
  | none => (w, collectTokens c ctx 0 w [])

/-! ## Sequences of invocations -/

/-- One invocation of the chaincode, with its arguments. -/
inductive Call where
  | RegisterToken (token fileName : String) (fileSize : Int) (contentType owner : String)
  | GetToken (token : String)
  | ValidateToken (token : String)
  | RevokeToken (token owner : String)
  | GetAllTokens
deriving DecidableEq, Repr

/-- The world state an invocation leaves behind. -/
def invoke {V : Type} (c : Codec V) (ctx : TxContext) (w : World V) : Call → World V
  | .RegisterToken token fileName fileSize contentType owner =>
    (RegisterToken c ctx w token fileName fileSize contentType owner).1
  | .GetToken token => (GetToken c ctx w token).1
  | .ValidateToken token => (ValidateToken c ctx w token).1
  | .RevokeToken token owner => (RevokeToken c ctx w token owner).1
  | .GetAllTokens => (GetAllTokens c ctx w).1

/-- The world state after a sequence of invocations, each in its own context. -/
def run {V : Type} (c : Codec V) : World V → List (TxContext × Call) → World V
  | w, [] => w
  | w, (ctx, call) :: rest => run c (invoke c ctx w call) rest

/-- The invocation is `RegisterToken` of `token` and it returns no error in `w`. -/
def registers {V : Type} (c : Codec V) (ctx : TxContext) (w : World V) (token : String) :
    Call → Bool
  | .RegisterToken t fileName fileSize contentType owner =>
    decide (t = token) &&
      (RegisterToken c ctx w t fileName fileSize contentType owner).2.isNone
  | _ => false

/-- The number of invocations in the sequence that register `token` successfully. -/
def successfulRegistrations {V : Type} (c : Codec V) (token : String) :
    World V → List (TxContext × Call) → Nat
  | _, [] => 0
  | w, (ctx, call) :: rest =>
    (if registers c ctx w token call then 1 else 0) +
      successfulRegistrations c token (invoke c ctx w call) rest

/-- The ledger `w` holds the record `r` under `token`: the stored bytes are the
marshalled `r`. -/
def Holds {V : Type} (c : Codec V) (w : World V) (token : String) (r : FileToken) : Prop :=
  ∃ bs, getState w token = some bs ∧ c.Marshal r = .ok bs

/-- The bytes stored under `token` in `w` unmarshal to `r`. -/
def Reads {V : Type} (c : Codec V) (w : World V) (token : String) (r : FileToken) : Prop :=
  ∃ bs, getState w token = some bs ∧ c.Unmarshal bs = .ok r

/-! ## Sample data -/

/-- The record of the scenario `Register("abc123", "report.txt", 77, "text/plain", "alice")`,
registered at time 0. -/
def sampleToken (active : Bool) : FileToken :=
  { Token := "abc123", FileName := "report.txt", FileSize := 77, ContentType := "text/plain",
    Owner := "alice", Timestamp := 0, IsActive := active }

/-- A ledger that holds the sample record, active or revoked. -/
def sampleWorld (active : Bool) : World FileToken := [("abc123", sampleToken active)]

/-! ## Shape of the ledger -/

/-- The invocation writes nothing: `GetToken`, `ValidateToken` or `GetAllTokens`. -/
def Call.readOnly : Call → Bool
  | .RegisterToken _ _ _ _ _ => false
  | .RevokeToken _ _ => false
  | .GetToken _ => true
  | .ValidateToken _ => true
  | .GetAllTokens => true

/-- The keys of the world state are in strictly increasing order. -/
def KeysSorted {V : Type} (w : World V) : Prop :=
  List.Pairwise (fun a b => keyBefore a.1 b.1 = true) w

/-- Every value of the world state is the marshalled record of a token, stored under
that token. -/
def Marshalled {V : Type} (c : Codec V) (w : World V) : Prop :=
  ∀ e ∈ w, ∃ r, c.Marshal r = .ok e.2 ∧ r.Token = e.1

/-! ## Content-derived tokens (`application/main.go`, `web-demo.go`) -/

/-- One byte. -/
abbrev Byte := Fin 256

/-- The array type `[32]byte` of the value `sha256.Sum256` returns. -/
structure Digest where
  bytes : List Byte
  size : bytes.length = 32

/-- The constant `hextable` of `encoding/hex`. -/
def hextable : List Char := "0123456789abcdef".data

/-- The function `hex.EncodeToString`: for each byte `v` the characters
`hextable[v>>4]` and `hextable[v&0x0f]`. -/
def EncodeToString (src : List Byte) : String :=
  String.mk (src.flatMap fun v =>
    [hextable.getD (v.val >>> 4) '?', hextable.getD (v.val &&& 0x0f) '?'])

/-- The function `generateToken` (the same in both programs); `Sum256` is
`sha256.Sum256`. -/
def generateToken (Sum256 : List Byte → Digest) (content : List Byte) : String :=
  let hash := Sum256 content
  EncodeToString hash.bytes

/-! ## The upload handlers -/

/-- What an upload handler reads of its request: the method, whether
`ParseMultipartForm`, `FormFile("file")` and `io.ReadAll(file)` fail, the content of the
file, `header.Filename` and `header.Header.Get("Content-Type")`. -/
structure UploadRequest where
  Method : String
  parseFormErr : Bool
  formFileErr : Bool
  readAllErr : Bool
  content : List Byte
  Filename : String
  ContentType : String

/-- A `POST` request whose form parses and carries one readable file. -/
def UploadRequest.ofFile (content : List Byte) (filename contentType : String) :
    UploadRequest where
  Method := "POST"
  parseFormErr := false
  formFileErr := false
  readAllErr := false
  content := content
  Filename := filename
  ContentType := contentType

/-- The record `FileUploadResponse`. -/
structure FileUploadResponse where
  Token : String
  Message : String
  FileName : String
deriving DecidableEq, Repr

/-- The body a handler writes: an error text, or the encoded `FileUploadResponse`. -/
inductive Body where
  | error (message : String)
  | upload (response : FileUploadResponse)
deriving DecidableEq, Repr

/-- The response of a handler: the status code and the body. -/
structure Response where
  status : Nat
  body : Body
deriving DecidableEq, Repr

/-- What `web-demo.go` takes from outside: `sha256.Sum256`, `time.Now()`, and the error
`storeFileInCouchDB(token, content, fileName, contentType)` returns (`none` is `nil`). -/
structure WebEnv where
  Sum256 : List Byte → Digest
  now : Int
  storeFileInCouchDB : String → List Byte → String → String → Option String

/-- The handler `uploadHandler` of `web-demo.go`: the map `blockchainTokens` it leaves
behind and its response.  The map is indexed with `getState` and assigned with
`putState`. -/
def uploadHandler (env : WebEnv) (blockchainTokens : World FileToken) (r : UploadRequest) :
    World FileToken × Response :=
  if r.Method ≠ "POST" then
    (blockchainTokens, { status := 405, body := .error "Method not allowed" })
  else if r.parseFormErr then
    (blockchainTokens, { status := 400, body := .error "Unable to parse form" })
  else if r.formFileErr then
    (blockchainTokens, { status := 400, body := .error "Unable to get file" })
  else if r.readAllErr then
    (blockchainTokens, { status := 500, body := .error "Unable to read file" })
  else
    let token := generateToken env.Sum256 r.content
    let blockchainToken : FileToken :=
      { Token := token, FileName := r.Filename, FileSize := r.content.length,
        ContentType := r.ContentType, Owner := "web-user", Timestamp := env.now,
        IsActive := true }
    let blockchainTokens := putState blockchainTokens token blockchainToken
    match env.storeFileInCouchDB token r.content r.Filename r.ContentType with
    | some err =>
      (blockchainTokens, { status := 500, body := .error ("Failed to store file: " ++ err) })
    | none =>
      (blockchainTokens,
        { status := 200,
          body := .upload
            { Token := token, Message := "File uploaded and secured with blockchain token",
              FileName := r.Filename } })

/-- What `application/main.go` takes from outside: `sha256.Sum256` and the errors its
two collaborators return (`none` is `nil`). -/
structure AppEnv where
  Sum256 : List Byte → Digest
  storeFileInCouchDB : String → List Byte → String → String → Option String
  registerTokenOnBlockchain : String → String → Int → String → String → Option String

/-- A call of `uploadFile` to one of its collaborators, with its arguments. -/
inductive AppCall where
  | storeFileInCouchDB (token : String) (content : List Byte) (fileName contentType : String)
  | registerTokenOnBlockchain (token fileName : String) (fileSize : Int)
      (contentType owner : String)
deriving DecidableEq, Repr

/-- The handler `FedShieldApp.uploadFile`: the calls it makes to its collaborators, in
order, and its response. -/
def uploadFile (env : AppEnv) (r : UploadRequest) : List AppCall × Response :=
  if r.parseFormErr then
    ([], { status := 400, body := .error "Unable to parse form" })
  else if r.formFileErr then
    ([], { status := 400, body := .error "Unable to get file" })
  else if r.readAllErr then
    ([], { status := 500, body := .error "Unable to read file" })
  else
    let token := generateToken env.Sum256 r.content
    let calls := [AppCall.storeFileInCouchDB token r.content r.Filename r.ContentType]
    match env.storeFileInCouchDB token r.content r.Filename r.ContentType with
    | some err => (calls, { status := 500, body := .error ("Failed to store file: " ++ err) })
    | none =>
      let calls := calls ++
        [AppCall.registerTokenOnBlockchain token r.Filename r.content.length r.ContentType
          "user1"]
      match env.registerTokenOnBlockchain token r.Filename r.content.length r.ContentType
          "user1" with
      | some err =>
        (calls, { status := 500, body := .error ("Failed to register token: " ++ err) })
      | none =>
        (calls,
          { status := 200,
            body := .upload
              { Token := token, Message := "File uploaded successfully",
                FileName := r.Filename } })

/-- A stand-in for `sha256.Sum256` in the examples: 32 copies of the length of the
content modulo 256. -/
def sampleSum256 (content : List Byte) : Digest where
  bytes := List.replicate 32 (Fin.ofNat content.length)
  size := List.length_replicate 32 _

/-- An environment of the application in which the two collaborators return the given
errors, whatever their arguments. -/
def sampleAppEnv (storeErr registerErr : Option String) : AppEnv where
  Sum256 := sampleSum256
  storeFileInCouchDB := fun _ _ _ _ => storeErr
  registerTokenOnBlockchain := fun _ _ _ _ _ => registerErr

/-! ## The retrieval and token-info handlers -/

/-- The zero value of `FileToken`, which a Go map returns for a key it does not hold. -/
def zeroFileToken : FileToken :=
  { Token := "", FileName := "", FileSize := 0, ContentType := "", Owner := "",
    Timestamp := 0, IsActive := false }

/-- The two-valued index expression `blockchainTokens[token]` on a
`map[string]FileToken`: the value (the zero value when absent) and whether the key
exists. -/
def mapIndex (blockchainTokens : World FileToken) (token : String) : FileToken × Bool :=
  match getState blockchainTokens token with
  | some blockchainToken => (blockchainToken, true)
  | none => (zeroFileToken, false)

/-- The record `FileRetrieveResponse`. -/
structure FileRetrieveResponse where
  Content : String
  FileName : String
  ContentType : String
deriving DecidableEq, Repr

/-- The body a retrieval or token-info handler writes: an error text, the encoded
`FileRetrieveResponse`, the encoded `FileToken`, or the bytes of a transaction result. -/
inductive Payload where
  | error (message : String)
  | file (response : FileRetrieveResponse)
  | token (record : FileToken)
  | raw (result : String)
deriving DecidableEq, Repr

/-- The response of a retrieval or token-info handler: the status code and the body. -/
structure Reply where
  status : Nat
  payload : Payload
deriving DecidableEq, Repr

/-- The handler `retrieveHandler` of `web-demo.go` for the token of the request path:
the tokens it passed to `retrieveFileFromCouchDB`, in order, and its response.  The
argument `retrieveFileFromCouchDB` gives what that function returns. -/
def retrieveHandler (retrieveFileFromCouchDB : String → Except String (String × String × String))
    (blockchainTokens : World FileToken) (token : String) : List String × Reply :=
  let (blockchainToken, found) := mapIndex blockchainTokens token
  if !found || !blockchainToken.IsActive then
    ([], { status := 401, payload := .error "Invalid or inactive token" })
  else
    match retrieveFileFromCouchDB token with
    | .error err =>
      ([token], { status := 404, payload := .error ("File retrieval failed: " ++ err) })
    | .ok (content, fileName, contentType) =>
      ([token],
        { status := 200,
          payload := .file
            { Content := content, FileName := fileName, ContentType := contentType } })

/-- The handler `tokenInfoHandler` of `web-demo.go` for the token of the request path. -/
def tokenInfoHandler (blockchainTokens : World FileToken) (token : String) : Reply :=
  let (blockchainToken, found) := mapIndex blockchainTokens token
  if !found then
    { status := 404, payload := .error "Token not found" }
  else
    { status := 200, payload := .token blockchainToken }

/-- What the retrieval handlers of `application/main.go` take from outside: the result
bytes or the error of `app.contract.EvaluateTransaction(name, arg)`, and what
`retrieveFileFromCouchDB(token)` returns. -/
structure AppGateway where
  EvaluateTransaction : String → String → Except String String
  retrieveFileFromCouchDB : String → Except String FileRetrieveResponse

/-- The method `FedShieldApp.validateTokenOnBlockchain`: the pair `(bool, error)`. -/
def validateTokenOnBlockchain (app : AppGateway) (token : String) : Bool × Option String :=
  match app.EvaluateTransaction "ValidateToken" token with
  | .error err => (false, some err)
  | .ok result => (result == "true", none)

/-- The handler `FedShieldApp.retrieveFile` for the token of the route: the tokens it
passed to `retrieveFileFromCouchDB`, in order, and its response. -/
def retrieveFile (app : AppGateway) (token : String) : List String × Reply :=
  match validateTokenOnBlockchain app token with
  | (_, some err) =>
    ([], { status := 500, payload := .error ("Token validation failed: " ++ err) })
  | (valid, none) =>
    if !valid then
      ([], { status := 401, payload := .error "Invalid or inactive token" })
    else
      match app.retrieveFileFromCouchDB token with
      | .error err =>
        ([token], { status := 404, payload := .error ("File retrieval failed: " ++ err) })
      | .ok fileData => ([token], { status := 200, payload := .file fileData })

/-- The handler `FedShieldApp.getTokenInfo` for the token of the route. -/
def getTokenInfo (app : AppGateway) (token : String) : Reply :=
  match app.EvaluateTransaction "GetToken" token with
  | .error err => { status := 404, payload := .error ("Token not found: " ++ err) }
  | .ok result => { status := 200, payload := .raw result }

/-- The contract of the application when it is the chaincode above on the ledger `w`:
evaluating `ValidateToken` or `GetToken` returns the value of the transaction as text
(`true` or `false`, the record encoded by `encode`), or the text of its error; any
other name is an error. -/
def chaincodeEvaluate {V : Type} (c : Codec V) (ctx : TxContext) (w : World V)
    (encode : FileToken → String) (name arg : String) : Except String String :=
  if name = "ValidateToken" then
    match (ValidateToken c ctx w arg).2 with
    | (_, some err) => .error err.message
    | (valid, none) => .ok (if valid then "true" else "false")
  else if name = "GetToken" then
    match (GetToken c ctx w arg).2 with
    | .error err => .error err.message
    | .ok fileToken => .ok (encode fileToken)
  else
    .error ("Function " ++ name ++ " not found in contract")

/-! ## Go strings in the demo programs -/

/-- The conversion `[]byte(s)`: the UTF-8 bytes of the string. -/
def bytesOf (s : String) : List Byte :=
  s.data.flatMap fun ch => (String.utf8EncodeChar ch).map fun b => b.val

/-- The built-in `len(s)` on a string: its number of bytes. -/
def len (s : String) : Nat := (bytesOf s).length

/-- The slice expression `s[:n]`, `none` when it panics (slice bounds out of range).  It
is used on hexadecimal and other ASCII text only, where bytes and characters
coincide. -/
def slicePrefix (s : String) (n : Nat) : Option String :=
  if n ≤ len s then some (String.mk (s.data.take n)) else none

/-- The verb `%d` of `fmt.Sprintf` on an integer. -/
def formatInt (n : Int) : String := toString n

/-! ## `demo-simple.go` -/

namespace DemoSimple

/-- The function `validateToken` of `demo-simple.go`. -/
def validateToken (token : String) (blockchainTokens : World FileToken) : Bool :=
  let (tokenData, found) := mapIndex blockchainTokens token
  found && tokenData.IsActive

/-- The slice `demoFiles` of `main`: name and content of each file. -/
def demoFiles : List (String × String) :=
  [("confidential_report.txt",
    "This is a confidential business report containing sensitive financial data."),
   ("medical_record.txt",
    "Patient: John Doe\nDiagnosis: Confidential medical information\nTreatment: Restricted access required"),
   ("legal_contract.txt",
    "CONFIDENTIAL LEGAL CONTRACT\nParties: Company A and Company B\nTerms: Highly sensitive business agreement")]

/-- One iteration of the first loop of `main`, on a file and the value of `time.Now()`:
the map `blockchainTokens` after it. -/
def register (Sum256 : List Byte → Digest) (blockchainTokens : World FileToken)
    (file : (String × String) × Int) : World FileToken :=
  let token := generateToken Sum256 (bytesOf file.1.2)
  let blockchainToken : FileToken :=
    { Token := token, FileName := file.1.1, FileSize := len file.1.2,
      ContentType := "text/plain", Owner := "demo-user", Timestamp := file.2,
      IsActive := true }
  putState blockchainTokens token blockchainToken

/-- The first loop of `main` over the files, each with its value of `time.Now()`,
starting from the empty map. -/
def registerAll (Sum256 : List Byte → Digest) (files : List ((String × String) × Int)) :
    World FileToken :=
  files.foldl (register Sum256) []

/-- The last loop of `main`: the slice `token[:16]` of every key of the map, `none`
when one of them panics. -/
def registryLines : World FileToken → Option (List String)
  | [] => some []
  | entry :: rest =>
    match slicePrefix entry.1 16 with
    | none => none
    | some shown =>
      match registryLines rest with
      | none => none
      | some lines => some (shown :: lines)

end DemoSimple

/-! ## `fabric-demo.go` -/

namespace FabricDemo

/-- The values of type `interface{}` that the program stores: strings, integers,
booleans, times, maps of such values, and `nil`. -/
inductive Value where
  | str (s : String)
  | int (n : Int)
  | bool (b : Bool)
  | time (t : Int)
  | map (entries : List (String × Value))
  | nil

/-- The record `FabricTransaction`. -/
structure FabricTransaction where
  TxID : String
  Function : String
  Args : List String
  Timestamp : Int
  BlockNumber : Int
  Status : String

/-- The record `BlockchainBlock`. -/
structure BlockchainBlock where
  BlockNumber : Int
  PreviousHash : String
  Transactions : List FabricTransaction
  Timestamp : Int
  Hash : String

/-- The record `FabricNetwork`. -/
structure FabricNetwork where
  Blocks : List BlockchainBlock
  Tokens : World Value

/-- The values `time.Now()` returns in one iteration of the registration loop: in
`generateTxID` (as `UnixNano`), for the transaction, for the block and for the token
entry. -/
structure Clock where
  txNanos : Int
  txTime : Int
  blockTime : Int
  tokenTime : Int

/-- The function `generateTxID`: the first 16 characters of the hexadecimal digest of
the clock reading. -/
def generateTxID (Sum256 : List Byte → Digest) (nanos : Int) : String :=
  let hash := Sum256 (bytesOf (formatInt nanos))
  String.mk ((EncodeToString hash.bytes).data.take 16)

/-- The verb `%v` of `fmt.Sprintf` on a slice of strings. -/
def formatArgs (args : List String) : String := "[" ++ " ".intercalate args ++ "]"

/-- The function `generateBlockHash`. -/
def generateBlockHash (Sum256 : List Byte → Digest) (tx : FabricTransaction) : String :=
  let data := tx.TxID ++ tx.Function ++ formatArgs tx.Args
  let hash := Sum256 (bytesOf data)
  EncodeToString hash.bytes

/-- The function `validateToken` of `fabric-demo.go`; `none` when the type assertion
`tokenData.(map[string]interface{})` panics. -/
def validateToken (token : String) (network : FabricNetwork) : Option Bool :=
  match getState network.Tokens token with
  | none => some false
  | some tokenData =>
    match tokenData with
    | .map tokenMap =>
      match getState tokenMap "isActive" with
      | some (.bool isActive) => some (true && isActive)
      | _ => some (false && false)
    | _ => none

/-- The network of `main` after the genesis block was appended, at time `now`. -/
def genesis (now : Int) : FabricNetwork :=
  { Blocks :=
      [{ BlockNumber := 0,
         PreviousHash := "0000000000000000000000000000000000000000000000000000000000000000",
         Transactions := [],
         Timestamp := now,
         Hash := "genesis_block_hash" }],
    Tokens := [] }

/-- One iteration of the registration loop of `main`: the network after it, `none`
when a slice or the index `network.Blocks[len(network.Blocks)-1]` panics. -/
def registerFile (Sum256 : List Byte → Digest) (network : FabricNetwork)
    (file : (String × String) × Clock) : Option FabricNetwork :=
  let token := generateToken Sum256 (bytesOf file.1.2)
  match slicePrefix token 32 with
  | none => none
  | some _ =>
    let tx : FabricTransaction :=
      { TxID := generateTxID Sum256 file.2.txNanos,
        Function := "RegisterToken",
        Args := [token, file.1.1, formatInt (len file.1.2), "text/plain", "demo-user"],
        Timestamp := file.2.txTime,
        BlockNumber := network.Blocks.length,
        Status := "VALID" }
    match network.Blocks.getLast? with
    | none => none
    | some last =>
      let block : BlockchainBlock :=
        { BlockNumber := network.Blocks.length,
          PreviousHash := last.Hash,
          Transactions := [tx],
          Timestamp := file.2.blockTime,
          Hash := generateBlockHash Sum256 tx }
      let network : FabricNetwork :=
        { Blocks := network.Blocks ++ [block],
          Tokens := putState network.Tokens token
            (.map
              [("fileName", .str file.1.1), ("fileSize", .int (len file.1.2)),
               ("contentType", .str "text/plain"), ("owner", .str "demo-user"),
               ("timestamp", .time file.2.tokenTime), ("isActive", .bool true),
               ("blockNumber", .int block.BlockNumber), ("txId", .str tx.TxID)]) }
      match slicePrefix block.Hash 32 with
      | none => none
      | some _ => some network

/-- The registration loop of `main` over the files, each with its clock readings. -/
def registerAll (Sum256 : List Byte → Digest) :
    FabricNetwork → List ((String × String) × Clock) → Option FabricNetwork
  | network, [] => some network
  | network, file :: rest =>
    match registerFile Sum256 network file with
    | none => none
    | some network => registerAll Sum256 network rest

/-- The slices the loop "BLOCKCHAIN STRUCTURE" of `main` takes of one block: `Hash[:16]`
for block 0, `Hash[:16]` and `PreviousHash[:16]` for the others; `none` when one
panics. -/
def blockLine (block : BlockchainBlock) : Option (List String) :=
  if block.BlockNumber = 0 then
    match slicePrefix block.Hash 16 with
    | none => none
    | some hash => some [hash]
  else
    match slicePrefix block.Hash 16, slicePrefix block.PreviousHash 16 with
    | some hash, some previous => some [hash, previous]
    | _, _ => none

/-- The slice `token[:32]` the validation loop of `main` takes of a key of
`network.Tokens`, and the result of `validateToken` on it; `none` when either
panics. -/
def validationLine (network : FabricNetwork) (token : String) : Option (String × Bool) :=
  match slicePrefix token 32 with
  | none => none
  | some shown =>
    match validateToken token network with
    | none => none
    | some valid => some (shown, valid)

end FabricDemo

/-! ## `doctor-access-demo.go` -/

namespace DoctorDemo

/-- The record `DoctorPermission`; times are instants in nanoseconds. -/
structure DoctorPermission where
  PatientID : String
  DoctorID : String
  FileToken : String
  FileName : String
  GrantedAt : Int
  ExpiresAt : Int
  IsActive : Bool
deriving DecidableEq, Repr

/-- The constant `time.Hour`, in nanoseconds. -/
def Hour : Int := 3600000000000

/-- The package variable `doctorPermissions`, initialised at time `init`. -/
def doctorPermissions (init : Int) : World (List DoctorPermission) :=
  [("DR001",
    [{ PatientID := "PAT001", DoctorID := "DR001",
       FileToken := "bcc2fbf8d2a90755172a56380b34d8b9f5208ae06a366b190147d7938238efe5",
       FileName := "cardiac_report.txt", GrantedAt := init + -2 * Hour,
       ExpiresAt := init + 30 * 24 * Hour, IsActive := true },
     { PatientID := "PAT002", DoctorID := "DR001",
       FileToken := "0c8da9d4b8bbf343912cf5e57b21594438e726f87c72ad99afc155af33e653c4",
       FileName := "ecg_results.txt", GrantedAt := init + -1 * Hour,
       ExpiresAt := init + 30 * 24 * Hour, IsActive := true }]),
   ("DR002",
    [{ PatientID := "PAT003", DoctorID := "DR002",
       FileToken := "91184b21d74a30ccb617394a12e1559ef3aed447f4ec0d39b6f4c36f7f49457b",
       FileName := "brain_scan.txt", GrantedAt := init + -3 * Hour,
       ExpiresAt := init + 30 * 24 * Hour, IsActive := true }])]

/-- The request body `accessFile` decodes. -/
structure AccessRequest where
  DoctorID : String
  Token : String
  FileName : String

/-- The body `accessFile` writes: an error text, or the success map with its message,
file name, access time and audit log. -/
inductive AccessBody where
  | error (message : String)
  | granted (message fileName : String) (accessTime : Int) (auditLog : String)
deriving DecidableEq, Repr

/-- The body `getDoctorFiles` writes: an error text, or the success map with the files
and their count. -/
inductive FilesBody where
  | error (message : String)
  | files (files : List DoctorPermission) (count : Nat)
deriving DecidableEq, Repr

/-- The loop of `accessFile` that sets `hasPermission`; `now` is the value of
`time.Now()` during the request. -/
def hasPermission (now : Int) (token : String) : List DoctorPermission → Bool
  | [] => false
  | perm :: rest =>
    if perm.FileToken = token && perm.IsActive && decide (now < perm.ExpiresAt) then true
    else hasPermission now token rest

/-- The handler `accessFile`: status code and body; `now` is the value of `time.Now()`
during the request. -/
def accessFile (permissionsOf : World (List DoctorPermission)) (now : Int)
    (request : AccessRequest) : Nat × AccessBody :=
  match getState permissionsOf request.DoctorID with
  | none => (401, .error "Doctor not authorized")
  | some permissions =>
    if !hasPermission now request.Token permissions then
      (403, .error "Access denied: No valid permission for this file")
    else
      (200, .granted "File access granted and logged on blockchain" request.FileName now
        "Access recorded on Hyperledger Fabric")

/-- The loop of `getDoctorFiles` that appends to `activeFiles`. -/
def filterActive (now : Int) : List DoctorPermission → List DoctorPermission →
    List DoctorPermission
  | activeFiles, [] => activeFiles
  | activeFiles, perm :: rest =>
    if perm.IsActive && decide (now < perm.ExpiresAt) then
      filterActive now (activeFiles ++ [perm]) rest
    else filterActive now activeFiles rest

/-- The handler `getDoctorFiles`: status code and body; `now` is the value of
`time.Now()` during the request. -/
def getDoctorFiles (permissionsOf : World (List DoctorPermission)) (now : Int)
    (doctorID : String) : Nat × FilesBody :=
  match getState permissionsOf doctorID with
  | none => (404, .error "No authorized files found")
  | some permissions =>
    let activeFiles := filterActive now [] permissions
    (200, .files activeFiles activeFiles.length)

end DoctorDemo

namespace FabricDemo

/-- The blocks form a chain: block 0 is the genesis block, and each later block carries
the hash of the block before it, its own index as `BlockNumber`, and one transaction
with that `BlockNumber`. -/
def Linked (blocks : List BlockchainBlock) : Prop :=
  (∃ g, blocks[0]? = some g ∧ g.BlockNumber = 0 ∧ g.Transactions = [] ∧
    g.Hash = "genesis_block_hash") ∧
  ∀ (i : Nat) (b b' : BlockchainBlock), blocks[i]? = some b → blocks[i + 1]? = some b' →
    b'.PreviousHash = b.Hash ∧ b'.BlockNumber = ((i + 1 : Nat) : Int) ∧
    ∃ tx, b'.Transactions = [tx] ∧ tx.BlockNumber = ((i + 1 : Nat) : Int)

/-- The hashes are long enough for the slices of `main`: every hash has at least 16
bytes, and a block other than block 0 has a hash of 64 bytes and a previous hash of at
least 16 bytes. -/
def Sized (blocks : List BlockchainBlock) : Prop :=
  ∀ b ∈ blocks, 16 ≤ len b.Hash ∧
    (b.BlockNumber ≠ 0 → len b.Hash = 64 ∧ 16 ≤ len b.PreviousHash)

/-- Every entry of `Tokens` is a map written at registration: its key has 64 bytes and
its `isActive` is the boolean `true`. -/
def Registered (tokens : World Value) : Prop :=
  ∀ e ∈ tokens, len e.1 = 64 ∧
    ∃ entries, e.2 = .map entries ∧ getState entries "isActive" = some (.bool true)

end FabricDemo

/-! ## The world state as a map -/

theorem charsBefore_irrefl (l : List Char) : charsBefore l l = false := by
  induction l with
  | nil => rfl
  | cons a rest ih => simp [charsBefore, ih]

theorem keyBefore_self (a : String) : keyBefore a a = false := by
  simp [keyBefore, charsBefore_irrefl]

theorem ne_of_keyBefore {a b : String} (h : keyBefore a b = true) : a ≠ b := by
  intro hab
  subst hab
  simp [keyBefore_self] at h

theorem getState_putState_self {V : Type} (w : World V) (key : String) (value : V) :
    getState (putState w key value) key = some value := by
  induction w with
  | nil => simp [putState, getState]
  | cons kv rest ih =>
    obtain ⟨k, v⟩ := kv
    by_cases h1 : keyBefore k key = true
    · have hne : k ≠ key := ne_of_keyBefore h1
      simp [putState, getState, h1, hne, ih]
    · by_cases h2 : k = key
      · subst h2
        simp [putState, getState, keyBefore_self]
      · simp [putState, getState, h1, h2]

theorem getState_putState_other {V : Type} (w : World V) (key : String) (value : V)
    (key' : String) (hne : key' ≠ key) :
    getState (putState w key value) key' = getState w key' := by
  have hne' : key ≠ key' := fun h => hne h.symm
  induction w with
  | nil => simp [putState, getState, hne']
  | cons kv rest ih =>
    obtain ⟨k, v⟩ := kv
    by_cases h1 : keyBefore k key = true
    · simp [putState, getState, h1, ih]
    · by_cases h2 : k = key
      · subst h2
        simp [putState, getState, keyBefore_self, hne']
      · simp [putState, getState, h1, h2, hne']

theorem putState_putState_same {V : Type} (w : World V) (key : String) (value : V) :
    putState (putState w key value) key value = putState w key value := by
  induction w with
  | nil => simp [putState, keyBefore_self]
  | cons kv rest ih =>
    obtain ⟨k, v⟩ := kv
    by_cases h1 : keyBefore k key = true
    · simp [putState, h1, ih]
    · by_cases h2 : k = key
      · subst h2
        simp [putState, keyBefore_self]
      · simp [putState, h1, h2, keyBefore_self]

/-! ## The transactions, case by case -/

theorem GetToken_world {V : Type} (c : Codec V) (ctx : TxContext) (w : World V)
    (token : String) : (GetToken c ctx w token).1 = w := by
  unfold GetToken
  split
  · rfl
  · rfl
  · split <;> rfl

theorem GetToken_absent {V : Type} (c : Codec V) (ctx : TxContext) (w : World V)
    (token : String) (hread : ctx.getStateErr token = none) (hnone : getState w token = none) :
    GetToken c ctx w token = (w, .error (.doesNotExist token)) := by
  simp [GetToken, TxContext.GetState, hread, hnone]

theorem GetToken_reads {V : Type} (c : Codec V) (ctx : TxContext) (w : World V)
    (token : String) (r : FileToken) (hread : ctx.getStateErr token = none)
    (hr : Reads c w token r) : GetToken c ctx w token = (w, .ok r) := by
  obtain ⟨bs, hbs, hun⟩ := hr
  simp [GetToken, TxContext.GetState, hread, hbs, hun]

theorem Reads_of_GetToken {V : Type} (c : Codec V) (ctx : TxContext) (w : World V)
    (token : String) (r : FileToken) (h : (GetToken c ctx w token).2 = .ok r) :
    Reads c w token r := by
  unfold GetToken TxContext.GetState at h
  cases hread : ctx.getStateErr token with
  | some err => simp [hread] at h
  | none =>
    cases hst : getState w token with
    | none => simp [hread, hst] at h
    | some bs =>
      cases hun : c.Unmarshal bs with
      | error err => simp [hread, hst, hun] at h
      | ok r' =>
        simp [hread, hst, hun] at h
        exact ⟨bs, hst, by rw [hun, h]⟩

theorem Reads_of_Holds {V : Type} (c : Codec V) (hrt : c.RoundTrip) (w : World V)
    (token : String) (r : FileToken) (h : Holds c w token r) : Reads c w token r := by
  obtain ⟨bs, hbs, hm⟩ := h
  exact ⟨bs, hbs, hrt r bs hm⟩

theorem ValidateToken_world {V : Type} (c : Codec V) (ctx : TxContext) (w : World V)
    (token : String) : (ValidateToken c ctx w token).1 = w := by
  have h := GetToken_world c ctx w token
  unfold ValidateToken
  split <;> rename_i heq <;> rw [heq] at h <;> exact h

theorem GetAllTokens_world {V : Type} (c : Codec V) (ctx : TxContext) (w : World V) :
    (GetAllTokens c ctx w).1 = w := by
  unfold GetAllTokens
  split <;> rfl

/-- What `RegisterToken` does to the world state: nothing, or it stores the marshalled
new record under a key that had no value. -/
theorem RegisterToken_world {V : Type} (c : Codec V) (ctx : TxContext) (w : World V)
    (token fileName : String) (fileSize : Int) (contentType owner : String) :
    (RegisterToken c ctx w token fileName fileSize contentType owner).1 = w ∨
    ∃ bs, getState w token = none ∧
      (RegisterToken c ctx w token fileName fileSize contentType owner).1 =
        putState w token bs := by
  unfold RegisterToken TxContext.GetState TxContext.PutState
  cases hread : ctx.getStateErr token with
  | some err => left; simp
  | none =>
    cases hst : getState w token with
    | some bs => left; simp
    | none =>
      cases hm : c.Marshal
          { Token := token, FileName := fileName, FileSize := fileSize,
            ContentType := contentType, Owner := owner, Timestamp := ctx.now,
            IsActive := true } with
      | error err => left; simp [hm]
      | ok bs =>
        cases hput : ctx.putStateErr token with
        | some err => left; simp [hm]
        | none => right; exact ⟨bs, rfl, by simp [hm]⟩

/-- What `RevokeToken` does to the world state: nothing, or it stores the marshalled
record it read, with `IsActive` false, under the same key. -/
theorem RevokeToken_world {V : Type} (c : Codec V) (ctx : TxContext) (w : World V)
    (token owner : String) :
    (RevokeToken c ctx w token owner).1 = w ∨
    ∃ r bs, Reads c w token r ∧ r.Owner = owner ∧
      c.Marshal { r with IsActive := false } = .ok bs ∧
      (RevokeToken c ctx w token owner).1 = putState w token bs := by
  cases hg : (GetToken c ctx w token).2 with
  | error err =>
    left
    have hw := GetToken_world c ctx w token
    unfold RevokeToken
    split
    · rename_i heq; rw [heq] at hw; exact hw
    · rename_i heq; rw [heq] at hg; simp at hg
  | ok r =>
    have hw := GetToken_world c ctx w token
    have hr := Reads_of_GetToken c ctx w token r hg
    unfold RevokeToken
    split
    · rename_i heq; rw [heq] at hg; simp at hg
    · rename_i w1 r1 heq
      rw [heq] at hg hw
      simp only at hg hw
      injection hg with hg
      subst hg
      subst hw
      by_cases ho : r1.Owner = owner
      · subst ho
        simp only [ne_eq, not_true_eq_false, if_false]
        cases hm : c.Marshal { r1 with IsActive := false } with
        | error err => left; rfl
        | ok bs =>
          unfold TxContext.PutState
          cases hput : ctx.putStateErr token with
          | some err => left; rfl
          | none => right; exact ⟨r1, bs, hr, rfl, hm, rfl⟩
      · left
        simp [ho]

/-- A `RegisterToken` that returns no error found no value under the key and stored
the marshalled new record there. -/
theorem RegisterToken_success {V : Type} (c : Codec V) (ctx : TxContext) (w : World V)
    (token fileName : String) (fileSize : Int) (contentType owner : String)
    (h : (RegisterToken c ctx w token fileName fileSize contentType owner).2 = none) :
    ∃ bs, getState w token = none ∧
      c.Marshal { Token := token, FileName := fileName, FileSize := fileSize,
                  ContentType := contentType, Owner := owner, Timestamp := ctx.now,
                  IsActive := true } = .ok bs ∧
      (RegisterToken c ctx w token fileName fileSize contentType owner).1 =
        putState w token bs := by
  unfold RegisterToken TxContext.GetState TxContext.PutState at h ⊢
  cases hread : ctx.getStateErr token with
  | some err => simp [hread] at h
  | none =>
    cases hst : getState w token with
    | some bs => simp [hread, hst] at h
    | none =>
      cases hm : c.Marshal
          { Token := token, FileName := fileName, FileSize := fileSize,
            ContentType := contentType, Owner := owner, Timestamp := ctx.now,
            IsActive := true } with
      | error err => simp [hread, hst, hm] at h
      | ok bs =>
        cases hput : ctx.putStateErr token with
        | some err => simp [hread, hst, hm, hput] at h
        | none => exact ⟨bs, rfl, rfl, by simp [hm]⟩

/-- A `RegisterToken` on a key that has a value returns an error and writes nothing. -/
theorem RegisterToken_present {V : Type} (c : Codec V) (ctx : TxContext) (w : World V)
    (token fileName : String) (fileSize : Int) (contentType owner : String)
    (hrec : getState w token ≠ none) :
    (RegisterToken c ctx w token fileName fileSize contentType owner).1 = w ∧
    (RegisterToken c ctx w token fileName fileSize contentType owner).2 ≠ none := by
  constructor
  · rcases RegisterToken_world c ctx w token fileName fileSize contentType owner with h | h
    · exact h
    · obtain ⟨_, hnone, _⟩ := h
      exact absurd hnone hrec
  · intro h
    obtain ⟨_, hnone, _⟩ :=
      RegisterToken_success c ctx w token fileName fileSize contentType owner h
    exact hrec hnone

/-! ## Invariants of the ledger -/

/-- What an invocation does to the world state: nothing, or one `putState`, under a
key without a value (registration) or of the record read with `IsActive` false
(revocation). -/
theorem invoke_world {V : Type} (c : Codec V) (ctx : TxContext) (w : World V) (call : Call) :
    invoke c ctx w call = w ∨
    (∃ token bs, getState w token = none ∧ invoke c ctx w call = putState w token bs) ∨
    (∃ token r bs, Reads c w token r ∧ c.Marshal { r with IsActive := false } = .ok bs ∧
      invoke c ctx w call = putState w token bs) := by
  cases call with
  | RegisterToken token fileName fileSize contentType owner =>
    rcases RegisterToken_world c ctx w token fileName fileSize contentType owner with h | h
    · left; exact h
    · obtain ⟨bs, hnone, hw⟩ := h
      right; left; exact ⟨token, bs, hnone, hw⟩
  | GetToken token => left; exact GetToken_world c ctx w token
  | ValidateToken token => left; exact ValidateToken_world c ctx w token
  | RevokeToken token owner =>
    rcases RevokeToken_world c ctx w token owner with h | h
    · left; exact h
    · obtain ⟨r, bs, hr, _, hm, hw⟩ := h
      right; right; exact ⟨token, r, bs, hr, hm, hw⟩
  | GetAllTokens => left; exact GetAllTokens_world c ctx w

/-- No invocation removes a key. -/
theorem getState_invoke_ne_none {V : Type} (c : Codec V) (ctx : TxContext) (w : World V)
    (call : Call) (token : String) (h : getState w token ≠ none) :
    getState (invoke c ctx w call) token ≠ none := by
  have hput : ∀ key bs, getState (putState w key bs) token ≠ none := by
    intro key bs
    by_cases hk : token = key
    · subst hk
      simp [getState_putState_self]
    · rw [getState_putState_other w key bs token hk]
      exact h
  rcases invoke_world c ctx w call with hw | ⟨key, bs, _, hw⟩ | ⟨key, r, bs, _, _, hw⟩
  · rw [hw]; exact h
  · rw [hw]; exact hput key bs
  · rw [hw]; exact hput key bs

/-- An invocation leaves the record read under `token` as it is, or as it is with
`IsActive` false. -/
theorem Reads_invoke {V : Type} (c : Codec V) (hrt : c.RoundTrip) (ctx : TxContext)
    (w : World V) (call : Call) (token : String) (r : FileToken) (h : Reads c w token r) :
    Reads c (invoke c ctx w call) token r ∨
    Reads c (invoke c ctx w call) token { r with IsActive := false } := by
  obtain ⟨bs0, hbs0, hun0⟩ := h
  rcases invoke_world c ctx w call with hw | ⟨key, bs, hnone, hw⟩ | ⟨key, r1, bs, hr1, hm, hw⟩
  · left; rw [hw]; exact ⟨bs0, hbs0, hun0⟩
  · left
    rw [hw]
    by_cases hk : token = key
    · subst hk
      rw [hnone] at hbs0
      exact absurd hbs0 (by simp)
    · exact ⟨bs0, by rw [getState_putState_other w key bs token hk]; exact hbs0, hun0⟩
  · rw [hw]
    by_cases hk : token = key
    · subst hk
      right
      obtain ⟨bs1, hbs1, hun1⟩ := hr1
      rw [hbs0] at hbs1
      injection hbs1 with hbs1
      subst hbs1
      rw [hun0] at hun1
      injection hun1 with hun1
      subst hun1
      exact ⟨bs, getState_putState_self w token bs, hrt _ bs hm⟩
    · left
      exact ⟨bs0, by rw [getState_putState_other w key bs token hk]; exact hbs0, hun0⟩

/-- A sequence of invocations leaves the record read under `token` as it is, or as it
is with `IsActive` false. -/
theorem Reads_run {V : Type} (c : Codec V) (hrt : c.RoundTrip)
    (calls : List (TxContext × Call)) (w : World V) (token : String) (r : FileToken)
    (h : Reads c w token r) :
    Reads c (run c w calls) token r ∨
    Reads c (run c w calls) token { r with IsActive := false } := by
  induction calls generalizing w r with
  | nil => left; exact h
  | cons head rest ih =>
    obtain ⟨ctx, call⟩ := head
    simp only [run]
    rcases Reads_invoke c hrt ctx w call token r h with h1 | h1
    · exact ih (invoke c ctx w call) r h1
    · rcases ih (invoke c ctx w call) _ h1 with h2 | h2
      · right; exact h2
      · right; exact h2

/-- Once `token` has a value, no later invocation registers it. -/
theorem successfulRegistrations_present {V : Type} (c : Codec V) (token : String)
    (calls : List (TxContext × Call)) (w : World V) (h : getState w token ≠ none) :
    successfulRegistrations c token w calls = 0 := by
  induction calls generalizing w with
  | nil => rfl
  | cons head rest ih =>
    obtain ⟨ctx, call⟩ := head
    have hreg : registers c ctx w token call = false := by
      cases call with
      | RegisterToken t fileName fileSize contentType owner =>
        by_cases ht : t = token
        · subst ht
          have hp := (RegisterToken_present c ctx w t fileName fileSize contentType owner h).2
          cases hres : (RegisterToken c ctx w t fileName fileSize contentType owner).2 with
          | none => exact absurd hres hp
          | some err => simp [registers, hres]
        · simp [registers, ht]
      | GetToken t => rfl
      | ValidateToken t => rfl
      | RevokeToken t o => rfl
      | GetAllTokens => rfl
    simp only [successfulRegistrations, hreg]
    simp [ih (invoke c ctx w call) (getState_invoke_ne_none c ctx w call token h)]

/-- From any world state, at most one invocation of a sequence registers `token`. -/
theorem successfulRegistrations_le_one {V : Type} (c : Codec V) (token : String)
    (calls : List (TxContext × Call)) (w : World V) :
    successfulRegistrations c token w calls ≤ 1 := by
  induction calls generalizing w with
  | nil => simp [successfulRegistrations]
  | cons head rest ih =>
    obtain ⟨ctx, call⟩ := head
    cases hreg : registers c ctx w token call with
    | false =>
      simp only [successfulRegistrations, hreg]
      simpa using ih (invoke c ctx w call)
    | true =>
      have hafter : getState (invoke c ctx w call) token ≠ none := by
        cases call with
        | RegisterToken t fileName fileSize contentType owner =>
          simp only [registers, Bool.and_eq_true, decide_eq_true_eq, Option.isNone_iff_eq_none]
            at hreg
          obtain ⟨ht, hres⟩ := hreg
          subst ht
          obtain ⟨bs, _, _, hw⟩ :=
            RegisterToken_success c ctx w t fileName fileSize contentType owner hres
          simp only [invoke, hw, getState_putState_self]
          simp
        | GetToken t => simp [registers] at hreg
        | ValidateToken t => simp [registers] at hreg
        | RevokeToken t o => simp [registers] at hreg
        | GetAllTokens => simp [registers] at hreg
      simp only [successfulRegistrations, hreg]
      simp [successfulRegistrations_present c token rest _ hafter]

/-- With the read succeeding, `RevokeToken` on a key whose bytes unmarshal to `r`
checks the owner, marshals `r` with `IsActive` false and stores it. -/
theorem RevokeToken_reads {V : Type} (c : Codec V) (ctx : TxContext) (w : World V)
    (token owner : String) (r : FileToken) (hread : ctx.getStateErr token = none)
    (hr : Reads c w token r) :
    RevokeToken c ctx w token owner =
      if r.Owner ≠ owner then (w, some .onlyOwner)
      else match c.Marshal { r with IsActive := false } with
        | .error err => (w, some (.json err))
        | .ok fileTokenJSON => ctx.PutState w token fileTokenJSON := by
  unfold RevokeToken
  rw [GetToken_reads c ctx w token r hread hr]

/-- After a successful `RegisterToken` and any sequence of invocations, the bytes under
the token unmarshal to the registered record, active or revoked. -/
theorem Reads_after_register {V : Type} (c : Codec V) (hrt : c.RoundTrip)
    (ctx0 : TxContext) (w0 w1 : World V) (t f : String) (s : Int) (ct o : String)
    (hreg : RegisterToken c ctx0 w0 t f s ct o = (w1, none))
    (calls : List (TxContext × Call)) :
    ∃ active, Reads c (run c w1 calls) t
      { Token := t, FileName := f, FileSize := s, ContentType := ct, Owner := o,
        Timestamp := ctx0.now, IsActive := active } := by
  have h2 : (RegisterToken c ctx0 w0 t f s ct o).2 = none := by rw [hreg]
  obtain ⟨bs, _, hm, hw⟩ := RegisterToken_success c ctx0 w0 t f s ct o h2
  rw [hreg] at hw
  simp only at hw
  have hreads : Reads c w1 t
      { Token := t, FileName := f, FileSize := s, ContentType := ct, Owner := o,
        Timestamp := ctx0.now, IsActive := true } :=
    ⟨bs, by rw [hw]; exact getState_putState_self w0 t bs, hrt _ bs hm⟩
  rcases Reads_run c hrt calls w1 t _ hreads with h | h
  · exact ⟨true, h⟩
  · exact ⟨false, h⟩

theorem Reads_unique {V : Type} (c : Codec V) (w : World V) (token : String)
    (r r' : FileToken) (h : Reads c w token r) (h' : Reads c w token r') : r = r' := by
  obtain ⟨bs, hbs, hun⟩ := h
  obtain ⟨bs', hbs', hun'⟩ := h'
  rw [hbs] at hbs'
  injection hbs' with hbs'
  subst hbs'
  rw [hun] at hun'
  injection hun'

/-- A `GetToken` that returns a record read the world state and unmarshalled it. -/
theorem GetToken_ok {V : Type} (c : Codec V) (ctx : TxContext) (w : World V)
    (token : String) (r : FileToken) (h : (GetToken c ctx w token).2 = .ok r) :
    ctx.getStateErr token = none ∧ Reads c w token r := by
  refine ⟨?_, Reads_of_GetToken c ctx w token r h⟩
  cases hread : ctx.getStateErr token with
  | none => rfl
  | some err => simp [GetToken, TxContext.GetState, hread] at h

/-- With the read succeeding, `ValidateToken` on a key whose bytes unmarshal to `r`
returns `r.IsActive` and no error. -/
theorem ValidateToken_reads {V : Type} (c : Codec V) (ctx : TxContext) (w : World V)
    (token : String) (r : FileToken) (hread : ctx.getStateErr token = none)
    (hr : Reads c w token r) : ValidateToken c ctx w token = (w, (r.IsActive, none)) := by
  unfold ValidateToken
  rw [GetToken_reads c ctx w token r hread hr]

/-- When `GetToken` returns an error, `ValidateToken` returns `false` with that error. -/
theorem ValidateToken_error {V : Type} (c : Codec V) (ctx : TxContext) (w : World V)
    (token : String) (err : Error) (h : (GetToken c ctx w token).2 = .error err) :
    ValidateToken c ctx w token = (w, (false, some err)) := by
  have hw := GetToken_world c ctx w token
  unfold ValidateToken
  split
  · rename_i w1 e heq
    rw [heq] at h hw
    simp only at h hw
    injection h with h
    rw [h, hw]
  · rename_i w1 r heq
    rw [heq] at h
    simp at h

/-- When `GetToken` returns an error, `RevokeToken` returns that error and writes
nothing. -/
theorem RevokeToken_error {V : Type} (c : Codec V) (ctx : TxContext) (w : World V)
    (token owner : String) (err : Error) (h : (GetToken c ctx w token).2 = .error err) :
    RevokeToken c ctx w token owner = (w, some err) := by
  have hw := GetToken_world c ctx w token
  unfold RevokeToken
  split
  · rename_i w1 e heq
    rw [heq] at h hw
    simp only at h hw
    injection h with h
    rw [h, hw]
  · rename_i w1 r heq
    rw [heq] at h
    simp at h

/-- A `RevokeToken` that returns no error read a record of the caller and stored it,
marshalled with `IsActive` false, under the same key. -/
theorem RevokeToken_success {V : Type} (c : Codec V) (ctx : TxContext) (w : World V)
    (token owner : String) (h : (RevokeToken c ctx w token owner).2 = none) :
    ∃ r bs, Reads c w token r ∧ r.Owner = owner ∧
      c.Marshal { r with IsActive := false } = .ok bs ∧
      RevokeToken c ctx w token owner = (putState w token bs, none) := by
  cases hg : (GetToken c ctx w token).2 with
  | error err =>
    rw [RevokeToken_error c ctx w token owner err hg] at h
    simp at h
  | ok r =>
    obtain ⟨hread, hr⟩ := GetToken_ok c ctx w token r hg
    rw [RevokeToken_reads c ctx w token owner r hread hr] at h ⊢
    by_cases ho : r.Owner = owner
    · subst ho
      simp only [ne_eq, not_true_eq_false, if_false] at h ⊢
      cases hm : c.Marshal { r with IsActive := false } with
      | error err => rw [hm] at h; simp at h
      | ok bs =>
        rw [hm] at h
        simp only at h ⊢
        cases hput : ctx.putStateErr token with
        | some err => simp [TxContext.PutState, hput] at h
        | none => exact ⟨r, bs, hr, rfl, hm, by simp [TxContext.PutState, hput]⟩
    · simp [ho] at h

/-- With the stub calls succeeding and `json.Marshal` succeeding, `RevokeToken` by the
owner of the record read stores the record with `IsActive` false. -/
theorem RevokeToken_owner {V : Type} (c : Codec V) (ctx : TxContext) (w : World V)
    (token : String) (r : FileToken) (bs : V) (hread : ctx.getStateErr token = none)
    (hput : ctx.putStateErr token = none) (hr : Reads c w token r)
    (hm : c.Marshal { r with IsActive := false } = .ok bs) :
    RevokeToken c ctx w token r.Owner = (putState w token bs, none) := by
  rw [RevokeToken_reads c ctx w token r.Owner r hread hr]
  simp [hm, TxContext.PutState, hput]

/-! ## The sample codec -/

theorem plainCodec_roundTrip : plainCodec.RoundTrip := by
  intro r bs h
  simp only [plainCodec] at h ⊢
  injection h with h
  rw [h]

theorem plainCodec_total : plainCodec.Total := fun r => ⟨r, rfl⟩

/-! ## Registration -/

/-- C1: in a ledger where `token` already has a value (whatever its record says about
`IsActive`), `RegisterToken` returns an error for all other arguments and leaves the
world state as it is; the error is "already exists" whenever the read of the world state
succeeds.  And in every sequence of invocations from the empty ledger, whatever the
stub does, at most one `RegisterToken` of `token` returns without error. -/
theorem RegisterToken_existing_rejected {V : Type} (c : Codec V) (ctx : TxContext)
    (w : World V) (token fileName : String) (fileSize : Int) (contentType owner : String)
    (existing : V) (hrec : getState w token = some existing) :
    (ctx.getStateErr token = none →
      RegisterToken c ctx w token fileName fileSize contentType owner =
        (w, some (.alreadyExists token))) ∧
    (RegisterToken c ctx w token fileName fileSize contentType owner).1 = w ∧
    (RegisterToken c ctx w token fileName fileSize contentType owner).2 ≠ none ∧
    ∀ calls : List (TxContext × Call), successfulRegistrations c token [] calls ≤ 1 := by
  have hsome : getState w token ≠ none := by rw [hrec]; simp
  have hp := RegisterToken_present c ctx w token fileName fileSize contentType owner hsome
  refine ⟨fun hread => ?_, hp.1, hp.2,
    fun calls => successfulRegistrations_le_one c token calls []⟩
  simp [RegisterToken, TxContext.GetState, hread, hrec]

theorem RegisterToken_existing_rejected_witness :
    getState (sampleWorld false) "abc123" = some (sampleToken false) ∧
    (TxContext.healthy 5).getStateErr "abc123" = none ∧
    RegisterToken plainCodec (TxContext.healthy 5) (sampleWorld false)
        "abc123" "other.txt" 3 "text/html" "bob" =
      (sampleWorld false, some (.alreadyExists "abc123")) :=
  ⟨by decide, rfl, (RegisterToken_existing_rejected plainCodec (TxContext.healthy 5)
    (sampleWorld false) "abc123" "other.txt" 3 "text/html" "bob" (sampleToken false)
    (by decide)).1 rfl⟩

/-- C2: in a ledger with no value under `t`, with `GetState` and `PutState` succeeding
and a lossless `json.Marshal`, `RegisterToken(t, f, s, ct, o)` returns no error;
afterwards `GetToken(t)` returns the record with exactly these fields, the time of the
registration and `IsActive = true`, and the value of every other key is unchanged. -/
theorem RegisterToken_then_GetToken {V : Type} (c : Codec V) (hrt : c.RoundTrip)
    (htot : c.Total) (ctx ctx' : TxContext) (w : World V) (t f : String) (s : Int)
    (ct o : String) (hnone : getState w t = none)
    (hget : ctx.getStateErr t = none) (hput : ctx.putStateErr t = none)
    (hget' : ctx'.getStateErr t = none) :
    (RegisterToken c ctx w t f s ct o).2 = none ∧
    (GetToken c ctx' (RegisterToken c ctx w t f s ct o).1 t).2 =
      .ok { Token := t, FileName := f, FileSize := s, ContentType := ct, Owner := o,
            Timestamp := ctx.now, IsActive := true } ∧
    ∀ t', t' ≠ t → getState (RegisterToken c ctx w t f s ct o).1 t' = getState w t' := by
  obtain ⟨bs, hm⟩ := htot
    { Token := t, FileName := f, FileSize := s, ContentType := ct, Owner := o,
      Timestamp := ctx.now, IsActive := true }
  have heq : RegisterToken c ctx w t f s ct o = (putState w t bs, none) := by
    simp [RegisterToken, TxContext.GetState, TxContext.PutState, hget, hnone, hm, hput]
  rw [heq]
  refine ⟨rfl, ?_, fun t' ht' => getState_putState_other w t bs t' ht'⟩
  rw [GetToken_reads c ctx' (putState w t bs) t _ hget'
    ⟨bs, getState_putState_self w t bs, hrt _ bs hm⟩]

theorem RegisterToken_then_GetToken_witness :
    getState (sampleWorld true) "ffff" = none ∧
    (RegisterToken plainCodec (TxContext.healthy 9) (sampleWorld true)
      "ffff" "scan.png" (-4) "image/png" "").2 = none ∧
    (GetToken plainCodec (TxContext.healthy 10)
      (RegisterToken plainCodec (TxContext.healthy 9) (sampleWorld true)
        "ffff" "scan.png" (-4) "image/png" "").1 "ffff").2 =
      .ok { Token := "ffff", FileName := "scan.png", FileSize := -4,
            ContentType := "image/png", Owner := "", Timestamp := 9, IsActive := true } :=
  have h := RegisterToken_then_GetToken plainCodec plainCodec_roundTrip plainCodec_total
    (TxContext.healthy 9) (TxContext.healthy 10) (sampleWorld true)
    "ffff" "scan.png" (-4) "image/png" "" (by decide) rfl rfl rfl
  ⟨by decide, h.1, h.2.1⟩

/-! ## Revocation by someone else -/

/-- C3: let `t` be registered by a `RegisterToken` with owner `a` that returned no
error, followed by any sequence of invocations.  For every `b ≠ a`, with the read of
the world state succeeding, `RevokeToken(t, b)` returns the "only owner can revoke
token" error and leaves the world state as it is; in particular `GetToken(t)` returns
the same record, with the same `IsActive`, before and after. -/
theorem RevokeToken_other_owner_forbidden {V : Type} (c : Codec V) (hrt : c.RoundTrip)
    (ctx0 : TxContext) (w0 w1 : World V) (t f : String) (s : Int) (ct a : String)
    (hreg : RegisterToken c ctx0 w0 t f s ct a = (w1, none))
    (calls : List (TxContext × Call)) (ctx : TxContext) (b : String) (hne : b ≠ a)
    (hread : ctx.getStateErr t = none) :
    RevokeToken c ctx (run c w1 calls) t b = (run c w1 calls, some .onlyOwner) ∧
    ∀ ctx' : TxContext,
      (GetToken c ctx' (RevokeToken c ctx (run c w1 calls) t b).1 t).2 =
        (GetToken c ctx' (run c w1 calls) t).2 := by
  obtain ⟨active, hr⟩ := Reads_after_register c hrt ctx0 w0 w1 t f s ct a hreg calls
  have heq : RevokeToken c ctx (run c w1 calls) t b = (run c w1 calls, some .onlyOwner) := by
    rw [RevokeToken_reads c ctx (run c w1 calls) t b _ hread hr]
    have : a ≠ b := fun h => hne h.symm
    simp [this]
  refine ⟨heq, fun ctx' => ?_⟩
  rw [heq]

theorem RevokeToken_other_owner_forbidden_witness :
    RegisterToken plainCodec (TxContext.healthy 0) [] "abc123" "report.txt" 77 "text/plain"
      "alice" = (sampleWorld true, none) ∧
    "bob" ≠ "alice" ∧
    RevokeToken plainCodec (TxContext.healthy 2)
      (run plainCodec (sampleWorld true) [(TxContext.healthy 1, .ValidateToken "abc123")])
      "abc123" "bob" =
      (run plainCodec (sampleWorld true) [(TxContext.healthy 1, .ValidateToken "abc123")],
        some .onlyOwner) :=
  ⟨rfl, by decide, (RevokeToken_other_owner_forbidden plainCodec plainCodec_roundTrip
    (TxContext.healthy 0) [] (sampleWorld true) "abc123" "report.txt" 77 "text/plain" "alice"
    rfl [(TxContext.healthy 1, .ValidateToken "abc123")] (TxContext.healthy 2) "bob"
    (by decide) rfl).1⟩

/-! ## Revocation is final -/

/-- C4: once a `RevokeToken(t, owner)` has returned no error, then after every sequence
of invocations (`RegisterToken`, `GetToken`, `ValidateToken`, `RevokeToken`,
`GetAllTokens` with any arguments, whatever the stub does) `ValidateToken(t)` does not
return `true`, and a `GetToken(t)` that returns a record returns one with
`IsActive = false`.  More generally, from any ledger in which `GetToken(t)` returns a
record with `IsActive = false`, no sequence of invocations leads to a ledger in which
`GetToken(t)` returns a record with `IsActive = true`. -/
theorem revoked_token_never_valid {V : Type} (c : Codec V) (hrt : c.RoundTrip)
    (ctx : TxContext) (w w1 : World V) (t owner : String)
    (hrev : RevokeToken c ctx w t owner = (w1, none))
    (calls : List (TxContext × Call)) (ctx' : TxContext) :
    (ValidateToken c ctx' (run c w1 calls) t).2.1 = false ∧
    (∀ r, (GetToken c ctx' (run c w1 calls) t).2 = .ok r → r.IsActive = false) ∧
    ∀ (w2 : World V) (ctx2 : TxContext) (r2 : FileToken),
      (GetToken c ctx2 w2 t).2 = .ok r2 → r2.IsActive = false →
      ∀ (later : List (TxContext × Call)) (ctx3 : TxContext) (r3 : FileToken),
        (GetToken c ctx3 (run c w2 later) t).2 = .ok r3 → r3.IsActive = false := by
  have hstays : ∀ (w2 : World V) (r2 : FileToken), Reads c w2 t r2 → r2.IsActive = false →
      ∀ (later : List (TxContext × Call)) (ctx3 : TxContext) (r3 : FileToken),
        (GetToken c ctx3 (run c w2 later) t).2 = .ok r3 → r3.IsActive = false := by
    intro w2 r2 hr2 hin later ctx3 r3 hr3
    have h3 := (GetToken_ok c ctx3 _ t r3 hr3).2
    rcases Reads_run c hrt later w2 t r2 hr2 with h | h
    · rw [Reads_unique c _ t _ _ h3 h]
      exact hin
    · rw [Reads_unique c _ t _ _ h3 h]
  have h2 : (RevokeToken c ctx w t owner).2 = none := by rw [hrev]
  obtain ⟨r0, bs, _, _, hm, heq⟩ := RevokeToken_success c ctx w t owner h2
  rw [hrev] at heq
  injection heq with hw1 _
  have hreads : Reads c w1 t { r0 with IsActive := false } :=
    ⟨bs, by rw [hw1]; exact getState_putState_self w t bs, hrt _ bs hm⟩
  have hget : ∀ r, (GetToken c ctx' (run c w1 calls) t).2 = .ok r → r.IsActive = false :=
    fun r hr => hstays w1 _ hreads rfl calls ctx' r hr
  refine ⟨?_, hget, fun w2 ctx2 r2 hr2 hin =>
    hstays w2 r2 (GetToken_ok c ctx2 w2 t r2 hr2).2 hin⟩
  cases hg : (GetToken c ctx' (run c w1 calls) t).2 with
  | error err => rw [ValidateToken_error c ctx' _ t err hg]
  | ok r =>
    obtain ⟨hread, hr⟩ := GetToken_ok c ctx' _ t r hg
    rw [ValidateToken_reads c ctx' _ t r hread hr]
    exact hget r hg

theorem revoked_token_never_valid_witness :
    RevokeToken plainCodec (TxContext.healthy 1) (sampleWorld true) "abc123" "alice" =
      (sampleWorld false, none) ∧
    (ValidateToken plainCodec (TxContext.healthy 4)
      (run plainCodec (sampleWorld false)
        [(TxContext.healthy 2, .RegisterToken "abc123" "report.txt" 77 "text/plain" "alice"),
         (TxContext.healthy 3, .GetAllTokens)]) "abc123").2.1 = false :=
  ⟨by decide, (revoked_token_never_valid plainCodec plainCodec_roundTrip (TxContext.healthy 1)
    (sampleWorld true) (sampleWorld false) "abc123" "alice" (by decide)
    [(TxContext.healthy 2, .RegisterToken "abc123" "report.txt" 77 "text/plain" "alice"),
     (TxContext.healthy 3, .GetAllTokens)] (TxContext.healthy 4)).1⟩

/-! ## Validation -/

/-- C5, as the claim states it, fails: on the empty ledger `ValidateToken` of the token
"never-registered" returns `false` together with the "does not exist" error, not with
no error. -/
theorem ValidateToken_unregistered_returns_error :
    (ValidateToken plainCodec (TxContext.healthy 0) [] "never-registered").2 =
      (false, some (.doesNotExist "never-registered")) ∧
    ¬ ((ValidateToken plainCodec (TxContext.healthy 0) [] "never-registered").2.1 = false ∧
       (ValidateToken plainCodec (TxContext.healthy 0) [] "never-registered").2.2 = none) := by
  decide

/-- C5, amended: in every ledger with no value under `t`, with the read of the world
state succeeding, `ValidateToken(t)` returns `false` together with the "does not exist"
error of `GetToken`, and leaves the world state as it is. -/
theorem ValidateToken_unregistered {V : Type} (c : Codec V) (ctx : TxContext) (w : World V)
    (t : String) (hread : ctx.getStateErr t = none) (hnone : getState w t = none) :
    ValidateToken c ctx w t = (w, (false, some (.doesNotExist t))) := by
  apply ValidateToken_error
  rw [GetToken_absent c ctx w t hread hnone]

theorem ValidateToken_unregistered_witness :
    (TxContext.healthy 0).getStateErr "never-registered" = none ∧
    getState (sampleWorld true) "never-registered" = none ∧
    ValidateToken plainCodec (TxContext.healthy 0) (sampleWorld true) "never-registered" =
      (sampleWorld true, (false, some (.doesNotExist "never-registered"))) :=
  ⟨rfl, by decide, ValidateToken_unregistered plainCodec (TxContext.healthy 0)
    (sampleWorld true) "never-registered" rfl (by decide)⟩

/-- C6: in every ledger, for every token and whatever the stub does, `ValidateToken(t)`
returns `true` if and only if `GetToken(t)` returns a record and that record has
`IsActive = true`. -/
theorem ValidateToken_true_iff {V : Type} (c : Codec V) (ctx : TxContext) (w : World V)
    (t : String) :
    (ValidateToken c ctx w t).2.1 = true ↔
      ∃ r, (GetToken c ctx w t).2 = .ok r ∧ r.IsActive = true := by
  cases hg : (GetToken c ctx w t).2 with
  | error err =>
    rw [ValidateToken_error c ctx w t err hg]
    simp
  | ok r =>
    obtain ⟨hread, hr⟩ := GetToken_ok c ctx w t r hg
    rw [ValidateToken_reads c ctx w t r hread hr]
    simp

/-! ## Revocation by the owner -/

/-- C7: let `t` be registered by a `RegisterToken` with owner `o` that returned no
error, followed by any sequence of invocations.  With `GetState` and `PutState`
succeeding and a lossless `json.Marshal`, `RevokeToken(t, o)` returns no error;
afterwards `GetToken(t)` returns the registered record with `IsActive = false`, and
`ValidateToken(t)` returns `false` and no error. -/
theorem RevokeToken_by_owner {V : Type} (c : Codec V) (hrt : c.RoundTrip) (htot : c.Total)
    (ctx0 : TxContext) (w0 w1 : World V) (t f : String) (s : Int) (ct o : String)
    (hreg : RegisterToken c ctx0 w0 t f s ct o = (w1, none))
    (calls : List (TxContext × Call)) (ctx ctx' : TxContext)
    (hread : ctx.getStateErr t = none) (hput : ctx.putStateErr t = none)
    (hread' : ctx'.getStateErr t = none) :
    (RevokeToken c ctx (run c w1 calls) t o).2 = none ∧
    (GetToken c ctx' (RevokeToken c ctx (run c w1 calls) t o).1 t).2 =
      .ok { Token := t, FileName := f, FileSize := s, ContentType := ct, Owner := o,
            Timestamp := ctx0.now, IsActive := false } ∧
    (ValidateToken c ctx' (RevokeToken c ctx (run c w1 calls) t o).1 t).2 = (false, none) := by
  obtain ⟨active, hr⟩ := Reads_after_register c hrt ctx0 w0 w1 t f s ct o hreg calls
  obtain ⟨bs, hm⟩ := htot
    { Token := t, FileName := f, FileSize := s, ContentType := ct, Owner := o,
      Timestamp := ctx0.now, IsActive := false }
  have heq := RevokeToken_owner c ctx (run c w1 calls) t _ bs hread hput hr hm
  simp only at heq
  have hafter : Reads c (putState (run c w1 calls) t bs) t
      { Token := t, FileName := f, FileSize := s, ContentType := ct, Owner := o,
        Timestamp := ctx0.now, IsActive := false } :=
    ⟨bs, getState_putState_self _ t bs, hrt _ bs hm⟩
  rw [heq]
  refine ⟨rfl, ?_, ?_⟩
  · rw [GetToken_reads c ctx' _ t _ hread' hafter]
  · rw [ValidateToken_reads c ctx' _ t _ hread' hafter]

theorem RevokeToken_by_owner_witness :
    RegisterToken plainCodec (TxContext.healthy 0) [] "abc123" "report.txt" 77 "text/plain"
      "alice" = (sampleWorld true, none) ∧
    (RevokeToken plainCodec (TxContext.healthy 2)
      (run plainCodec (sampleWorld true) [(TxContext.healthy 1, .RevokeToken "abc123" "bob")])
      "abc123" "alice").2 = none ∧
    (ValidateToken plainCodec (TxContext.healthy 3)
      (RevokeToken plainCodec (TxContext.healthy 2)
        (run plainCodec (sampleWorld true)
          [(TxContext.healthy 1, .RevokeToken "abc123" "bob")])
        "abc123" "alice").1 "abc123").2 = (false, none) :=
  have h := RevokeToken_by_owner plainCodec plainCodec_roundTrip plainCodec_total
    (TxContext.healthy 0) [] (sampleWorld true) "abc123" "report.txt" 77 "text/plain" "alice"
    rfl [(TxContext.healthy 1, .RevokeToken "abc123" "bob")] (TxContext.healthy 2)
    (TxContext.healthy 3) rfl rfl rfl
  ⟨rfl, h.1, h.2.2⟩

/-- C8: let `t` be registered by a `RegisterToken` with owner `o` that returned no
error, followed by any sequence of invocations.  With `GetState` and `PutState`
succeeding and a lossless `json.Marshal`, two successive `RevokeToken(t, o)` both return
no error, the world state after the second is the world state after the first, and
`GetToken(t)` then returns the registered record with `IsActive = false`. -/
theorem RevokeToken_idempotent {V : Type} (c : Codec V) (hrt : c.RoundTrip) (htot : c.Total)
    (ctx0 : TxContext) (w0 w1 : World V) (t f : String) (s : Int) (ct o : String)
    (hreg : RegisterToken c ctx0 w0 t f s ct o = (w1, none))
    (calls : List (TxContext × Call)) (ctx1 ctx2 ctx' : TxContext)
    (hread1 : ctx1.getStateErr t = none) (hput1 : ctx1.putStateErr t = none)
    (hread2 : ctx2.getStateErr t = none) (hput2 : ctx2.putStateErr t = none)
    (hread' : ctx'.getStateErr t = none) :
    (RevokeToken c ctx1 (run c w1 calls) t o).2 = none ∧
    RevokeToken c ctx2 (RevokeToken c ctx1 (run c w1 calls) t o).1 t o =
      ((RevokeToken c ctx1 (run c w1 calls) t o).1, none) ∧
    (GetToken c ctx'
        (RevokeToken c ctx2 (RevokeToken c ctx1 (run c w1 calls) t o).1 t o).1 t).2 =
      .ok { Token := t, FileName := f, FileSize := s, ContentType := ct, Owner := o,
            Timestamp := ctx0.now, IsActive := false } := by
  obtain ⟨active, hr⟩ := Reads_after_register c hrt ctx0 w0 w1 t f s ct o hreg calls
  obtain ⟨bs, hm⟩ := htot
    { Token := t, FileName := f, FileSize := s, ContentType := ct, Owner := o,
      Timestamp := ctx0.now, IsActive := false }
  have heq1 := RevokeToken_owner c ctx1 (run c w1 calls) t _ bs hread1 hput1 hr hm
  simp only at heq1
  have hafter : Reads c (putState (run c w1 calls) t bs) t
      { Token := t, FileName := f, FileSize := s, ContentType := ct, Owner := o,
        Timestamp := ctx0.now, IsActive := false } :=
    ⟨bs, getState_putState_self _ t bs, hrt _ bs hm⟩
  have heq2 := RevokeToken_owner c ctx2 (putState (run c w1 calls) t bs) t _ bs hread2 hput2
    hafter hm
  simp only [putState_putState_same] at heq2
  refine ⟨by rw [heq1], ?_, ?_⟩
  · rw [heq1]
    exact heq2
  · rw [heq1]
    simp only
    rw [heq2, GetToken_reads c ctx' _ t _ hread' hafter]

theorem RevokeToken_idempotent_witness :
    RegisterToken plainCodec (TxContext.healthy 0) [] "abc123" "report.txt" 77 "text/plain"
      "alice" = (sampleWorld true, none) ∧
    RevokeToken plainCodec (TxContext.healthy 1) (run plainCodec (sampleWorld true) [])
      "abc123" "alice" = (sampleWorld false, none) ∧
    RevokeToken plainCodec (TxContext.healthy 2)
      (RevokeToken plainCodec (TxContext.healthy 1) (run plainCodec (sampleWorld true) [])
        "abc123" "alice").1 "abc123" "alice" =
      ((RevokeToken plainCodec (TxContext.healthy 1) (run plainCodec (sampleWorld true) [])
        "abc123" "alice").1, none) :=
  ⟨rfl, by decide, (RevokeToken_idempotent plainCodec plainCodec_roundTrip plainCodec_total
    (TxContext.healthy 0) [] (sampleWorld true) "abc123" "report.txt" 77 "text/plain" "alice"
    rfl [] (TxContext.healthy 1) (TxContext.healthy 2) (TxContext.healthy 3)
    rfl rfl rfl rfl rfl).2.1⟩

/-! ## Lookup -/

/-- C9: in every ledger and for every token, with the read of the world state
succeeding, `GetToken(t)` returns the "does not exist" error if and only if the ledger
has no value under `t`; and when the ledger holds a record under `t` (its marshalled
bytes, losslessly), `GetToken(t)` returns that record in full, whether its `IsActive`
is true or false. -/
theorem GetToken_notFound_iff {V : Type} (c : Codec V) (hrt : c.RoundTrip) (ctx : TxContext)
    (w : World V) (t : String) (hread : ctx.getStateErr t = none) :
    ((GetToken c ctx w t).2 = .error (.doesNotExist t) ↔ getState w t = none) ∧
    ∀ r, Holds c w t r → GetToken c ctx w t = (w, .ok r) := by
  constructor
  · constructor
    · intro h
      cases hst : getState w t with
      | none => rfl
      | some bs =>
        cases hun : c.Unmarshal bs with
        | error err => simp [GetToken, TxContext.GetState, hread, hst, hun] at h
        | ok r => simp [GetToken, TxContext.GetState, hread, hst, hun] at h
    · intro hnone
      rw [GetToken_absent c ctx w t hread hnone]
  · intro r hr
    exact GetToken_reads c ctx w t r hread (Reads_of_Holds c hrt w t r hr)

theorem GetToken_notFound_iff_witness :
    (TxContext.healthy 0).getStateErr "abc123" = none ∧
    Holds plainCodec (sampleWorld false) "abc123" (sampleToken false) ∧
    GetToken plainCodec (TxContext.healthy 0) (sampleWorld false) "abc123" =
      (sampleWorld false, .ok (sampleToken false)) :=
  have hold : Holds plainCodec (sampleWorld false) "abc123" (sampleToken false) :=
    ⟨sampleToken false, by decide, rfl⟩
  ⟨rfl, hold, (GetToken_notFound_iff plainCodec plainCodec_roundTrip (TxContext.healthy 0)
    (sampleWorld false) "abc123" rfl).2 (sampleToken false) hold⟩

/-! ## Revocation of an unknown token -/

/-- C10: in every ledger with no value under `t` and for every `requestingOwner`,
`RevokeToken(t, requestingOwner)` returns an error that is not the "only owner can
revoke token" error and leaves the world state as it is, so there is still no value
under `t`; the error is "does not exist" whenever the read of the world state
succeeds. -/
theorem RevokeToken_unregistered {V : Type} (c : Codec V) (ctx : TxContext) (w : World V)
    (t requestingOwner : String) (hnone : getState w t = none) :
    (ctx.getStateErr t = none →
      RevokeToken c ctx w t requestingOwner = (w, some (.doesNotExist t))) ∧
    (RevokeToken c ctx w t requestingOwner).1 = w ∧
    (RevokeToken c ctx w t requestingOwner).2 ≠ none ∧
    (RevokeToken c ctx w t requestingOwner).2 ≠ some .onlyOwner ∧
    getState (RevokeToken c ctx w t requestingOwner).1 t = none := by
  have hg : ∃ err, (GetToken c ctx w t).2 = .error err ∧ err ≠ .onlyOwner ∧
      (ctx.getStateErr t = none → err = .doesNotExist t) := by
    cases hread : ctx.getStateErr t with
    | some cause =>
      exact ⟨.readFailed cause, by simp [GetToken, TxContext.GetState, hread], by simp,
        by simp⟩
    | none =>
      exact ⟨.doesNotExist t, by rw [GetToken_absent c ctx w t hread hnone], by simp,
        fun _ => rfl⟩
  obtain ⟨err, herr, hforbidden, hkind⟩ := hg
  have heq := RevokeToken_error c ctx w t requestingOwner err herr
  refine ⟨fun hread => ?_, ?_, ?_, ?_, ?_⟩
  · rw [heq, hkind hread]
  · rw [heq]
  · rw [heq]; simp
  · rw [heq]
    intro h
    injection h with h
    exact hforbidden h
  · rw [heq]
    exact hnone

theorem RevokeToken_unregistered_witness :
    getState (sampleWorld true) "zzz" = none ∧
    (TxContext.healthy 0).getStateErr "zzz" = none ∧
    RevokeToken plainCodec (TxContext.healthy 0) (sampleWorld true) "zzz" "alice" =
      (sampleWorld true, some (.doesNotExist "zzz")) :=
  ⟨by decide, rfl, (RevokeToken_unregistered plainCodec (TxContext.healthy 0)
    (sampleWorld true) "zzz" "alice" (by decide)).1 rfl⟩

/-! ## What revocation leaves alone -/

theorem getState_run_ne_none {V : Type} (c : Codec V) (calls : List (TxContext × Call))
    (w : World V) (token : String) (h : getState w token ≠ none) :
    getState (run c w calls) token ≠ none := by
  induction calls generalizing w with
  | nil => exact h
  | cons head rest ih =>
    obtain ⟨ctx, call⟩ := head
    exact ih (invoke c ctx w call) (getState_invoke_ne_none c ctx w call token h)

/-- C11: a `RevokeToken(t, o)` that returns no error read a record `r` under `t` and
leaves under `t` the record `r` with `IsActive` false: `Token`, `FileName`, `FileSize`,
`ContentType`, `Owner` and `Timestamp` are those of `r`; the value of every other key is
unchanged.  Hence after a `RegisterToken` with owner `a` that returned no error, and
any sequence of invocations, a `GetToken` that returns a record returns the registered
fields, with `Owner = a`. -/
theorem RevokeToken_changes_only_IsActive {V : Type} (c : Codec V) (hrt : c.RoundTrip)
    (ctx : TxContext) (w w1 : World V) (t o : String)
    (hrev : RevokeToken c ctx w t o = (w1, none)) :
    (∃ r, (∀ ctx' : TxContext, ctx'.getStateErr t = none →
        (GetToken c ctx' w t).2 = .ok r ∧
        (GetToken c ctx' w1 t).2 =
          .ok { Token := r.Token, FileName := r.FileName, FileSize := r.FileSize,
                ContentType := r.ContentType, Owner := r.Owner, Timestamp := r.Timestamp,
                IsActive := false })) ∧
    (∀ t', t' ≠ t → getState w1 t' = getState w t') ∧
    ∀ (ctx0 : TxContext) (w0 w2 : World V) (t2 f : String) (s : Int) (ct a : String),
      RegisterToken c ctx0 w0 t2 f s ct a = (w2, none) →
      ∀ (calls : List (TxContext × Call)) (ctx' : TxContext) (r : FileToken),
        (GetToken c ctx' (run c w2 calls) t2).2 = .ok r →
        r.Token = t2 ∧ r.FileName = f ∧ r.FileSize = s ∧ r.ContentType = ct ∧
          r.Owner = a ∧ r.Timestamp = ctx0.now := by
  have h2 : (RevokeToken c ctx w t o).2 = none := by rw [hrev]
  obtain ⟨r0, bs, hr0, _, hm, heq⟩ := RevokeToken_success c ctx w t o h2
  rw [hrev] at heq
  injection heq with hw1 _
  subst hw1
  refine ⟨⟨r0, fun ctx' hread => ?_⟩, fun t' ht' => getState_putState_other w t bs t' ht', ?_⟩
  · rw [GetToken_reads c ctx' w t r0 hread hr0,
      GetToken_reads c ctx' (putState w t bs) t _ hread
        ⟨bs, getState_putState_self w t bs, hrt _ bs hm⟩]
    exact ⟨rfl, rfl⟩
  · intro ctx0 w0 w2 t2 f s ct a hreg calls ctx' r hr
    obtain ⟨active, hreads⟩ := Reads_after_register c hrt ctx0 w0 w2 t2 f s ct a hreg calls
    have := Reads_unique c _ t2 _ _ (GetToken_ok c ctx' _ t2 r hr).2 hreads
    subst this
    exact ⟨rfl, rfl, rfl, rfl, rfl, rfl⟩

theorem RevokeToken_changes_only_IsActive_witness :
    RevokeToken plainCodec (TxContext.healthy 1) (sampleWorld true) "abc123" "alice" =
      (sampleWorld false, none) ∧
    ∀ t', t' ≠ "abc123" → getState (sampleWorld false) t' = getState (sampleWorld true) t' :=
  ⟨by decide, (RevokeToken_changes_only_IsActive plainCodec plainCodec_roundTrip
    (TxContext.healthy 1) (sampleWorld true) (sampleWorld false) "abc123" "alice"
    (by decide)).2.1⟩

/-! ## Records are never deleted -/

/-- C13: after a `RegisterToken(t, ...)` that returned no error and any sequence of
invocations (whatever the stub does in them), `GetToken(t)` returns a record, the one
registered, whenever its read of the world state succeeds; and a key that has a value
in some ledger has a value after every sequence of invocations. -/
theorem registered_token_stays {V : Type} (c : Codec V) (hrt : c.RoundTrip)
    (ctx0 : TxContext) (w0 w1 : World V) (t f : String) (s : Int) (ct o : String)
    (hreg : RegisterToken c ctx0 w0 t f s ct o = (w1, none))
    (calls : List (TxContext × Call)) (ctx : TxContext)
    (hread : ctx.getStateErr t = none) :
    (∃ active, GetToken c ctx (run c w1 calls) t =
      (run c w1 calls,
        .ok { Token := t, FileName := f, FileSize := s, ContentType := ct, Owner := o,
              Timestamp := ctx0.now, IsActive := active })) ∧
    ∀ (w : World V) (k : String) (later : List (TxContext × Call)),
      getState w k ≠ none → getState (run c w later) k ≠ none := by
  obtain ⟨active, hreads⟩ := Reads_after_register c hrt ctx0 w0 w1 t f s ct o hreg calls
  exact ⟨⟨active, GetToken_reads c ctx _ t _ hread hreads⟩,
    fun w k later h => getState_run_ne_none c later w k h⟩

theorem registered_token_stays_witness :
    RegisterToken plainCodec (TxContext.healthy 0) [] "abc123" "report.txt" 77 "text/plain"
      "alice" = (sampleWorld true, none) ∧
    ∃ active, GetToken plainCodec (TxContext.healthy 3)
      (run plainCodec (sampleWorld true)
        [(TxContext.healthy 1, .RevokeToken "abc123" "alice"),
         (TxContext.healthy 2, .RegisterToken "abc123" "x" 1 "y" "bob")]) "abc123" =
      (run plainCodec (sampleWorld true)
        [(TxContext.healthy 1, .RevokeToken "abc123" "alice"),
         (TxContext.healthy 2, .RegisterToken "abc123" "x" 1 "y" "bob")],
        .ok { Token := "abc123", FileName := "report.txt", FileSize := 77,
              ContentType := "text/plain", Owner := "alice", Timestamp := 0,
              IsActive := active }) :=
  ⟨rfl, (registered_token_stays plainCodec plainCodec_roundTrip (TxContext.healthy 0) []
    (sampleWorld true) "abc123" "report.txt" 77 "text/plain" "alice" rfl
    [(TxContext.healthy 1, .RevokeToken "abc123" "alice"),
     (TxContext.healthy 2, .RegisterToken "abc123" "x" 1 "y" "bob")]
    (TxContext.healthy 3) rfl).1⟩

/-! ## Read-only transactions -/

theorem collectTokens_congr {V : Type} (c : Codec V) (ctx1 ctx2 : TxContext)
    (hnext : ∀ i, ctx1.nextErr i = ctx2.nextErr i) (l : List (String × V)) (i : Nat)
    (tokens : List FileToken) :
    collectTokens c ctx1 i l tokens = collectTokens c ctx2 i l tokens := by
  induction l generalizing i tokens with
  | nil => rfl
  | cons e rest ih =>
    obtain ⟨k, value⟩ := e
    simp only [collectTokens, hnext i]
    cases ctx2.nextErr i with
    | some err => rfl
    | none =>
      cases c.Unmarshal value with
      | error err => rfl
      | ok token => exact ih (i + 1) (tokens ++ [token])

theorem invoke_readOnly {V : Type} (c : Codec V) (ctx : TxContext) (w : World V)
    (call : Call) (h : call.readOnly = true) : invoke c ctx w call = w := by
  cases call with
  | RegisterToken token fileName fileSize contentType owner => simp [Call.readOnly] at h
  | RevokeToken token owner => simp [Call.readOnly] at h
  | GetToken token => exact GetToken_world c ctx w token
  | ValidateToken token => exact ValidateToken_world c ctx w token
  | GetAllTokens => exact GetAllTokens_world c ctx w

theorem run_readOnly {V : Type} (c : Codec V) (calls : List (TxContext × Call))
    (w : World V) (h : ∀ x ∈ calls, x.2.readOnly = true) : run c w calls = w := by
  induction calls generalizing w with
  | nil => rfl
  | cons head rest ih =>
    obtain ⟨ctx, call⟩ := head
    simp only [run]
    rw [invoke_readOnly c ctx w call (h (ctx, call) (List.mem_cons_self _ _))]
    exact ih w (fun x hx => h x (List.mem_cons_of_mem _ hx))

/-- C15: `GetAllTokens`, `GetToken` and `ValidateToken` leave every world state as it
is, whatever the stub does; and a second `GetAllTokens`, after any invocations of these
three in between and with the range query behaving as in the first, returns what the
first returned. -/
theorem read_transactions_leave_ledger {V : Type} (c : Codec V) (ctx1 ctx2 : TxContext)
    (w : World V) (t : String) (between : List (TxContext × Call))
    (hbetween : ∀ x ∈ between, x.2.readOnly = true)
    (hrange : ctx1.rangeErr = ctx2.rangeErr)
    (hnext : ∀ i, ctx1.nextErr i = ctx2.nextErr i) :
    (GetAllTokens c ctx1 w).1 = w ∧ (GetToken c ctx1 w t).1 = w ∧
    (ValidateToken c ctx1 w t).1 = w ∧
    (GetAllTokens c ctx2 (run c (GetAllTokens c ctx1 w).1 between)).2 =
      (GetAllTokens c ctx1 w).2 := by
  refine ⟨GetAllTokens_world c ctx1 w, GetToken_world c ctx1 w t,
    ValidateToken_world c ctx1 w t, ?_⟩
  rw [GetAllTokens_world c ctx1 w, run_readOnly c between w hbetween]
  unfold GetAllTokens
  rw [hrange]
  cases ctx2.rangeErr with
  | some err => rfl
  | none => exact (collectTokens_congr c ctx1 ctx2 hnext w 0 []).symm

theorem read_transactions_leave_ledger_witness :
    (GetAllTokens plainCodec (TxContext.healthy 1) (sampleWorld false)).1 = sampleWorld false ∧
    (GetAllTokens plainCodec (TxContext.healthy 3)
      (run plainCodec (GetAllTokens plainCodec (TxContext.healthy 1) (sampleWorld false)).1
        [(TxContext.healthy 2, .ValidateToken "abc123")])).2 =
      (GetAllTokens plainCodec (TxContext.healthy 1) (sampleWorld false)).2 :=
  have h := read_transactions_leave_ledger plainCodec (TxContext.healthy 1)
    (TxContext.healthy 3) (sampleWorld false) "abc123"
    [(TxContext.healthy 2, .ValidateToken "abc123")] (by decide) rfl (fun _ => rfl)
  ⟨h.1, h.2.2.2⟩

/-! ## Failures of the store -/

theorem message_ne_of_head {a b : String} (h : a.data.head? ≠ b.data.head?) : a ≠ b := by
  intro hab
  rw [hab] at h
  exact h rfl

theorem RegisterToken_writeFailed {V : Type} (c : Codec V) (ctx : TxContext) (w : World V)
    (token fileName : String) (fileSize : Int) (contentType owner cause : String)
    (hput : ctx.putStateErr token = some cause) :
    (RegisterToken c ctx w token fileName fileSize contentType owner).1 = w ∧
    (RegisterToken c ctx w token fileName fileSize contentType owner).2 ≠ none := by
  unfold RegisterToken TxContext.GetState TxContext.PutState
  cases hread : ctx.getStateErr token with
  | some err => simp
  | none =>
    cases hst : getState w token with
    | some bs => simp
    | none =>
      cases hm : c.Marshal
          { Token := token, FileName := fileName, FileSize := fileSize,
            ContentType := contentType, Owner := owner, Timestamp := ctx.now,
            IsActive := true } with
      | error err => simp [hm]
      | ok bs => simp [hm, hput]

theorem RevokeToken_writeFailed {V : Type} (c : Codec V) (ctx : TxContext) (w : World V)
    (token owner cause : String) (hput : ctx.putStateErr token = some cause) :
    (RevokeToken c ctx w token owner).1 = w ∧ (RevokeToken c ctx w token owner).2 ≠ none := by
  cases hg : (GetToken c ctx w token).2 with
  | error err =>
    rw [RevokeToken_error c ctx w token owner err hg]
    simp
  | ok r =>
    obtain ⟨hread, hr⟩ := GetToken_ok c ctx w token r hg
    rw [RevokeToken_reads c ctx w token owner r hread hr]
    by_cases ho : r.Owner = owner
    · subst ho
      simp only [ne_eq, not_true_eq_false, if_false]
      cases hm : c.Marshal { r with IsActive := false } with
      | error err => simp
      | ok bs => simp [TxContext.PutState, hput]
    · simp [ho]

/-- C16: when `GetState(t)` fails with `cause`, each of `RegisterToken`, `GetToken`,
`ValidateToken` and `RevokeToken` on `t` returns the error "failed to read from world
state: cause" and leaves the world state as it is; the text of that error differs from
the texts of the "already exists", "does not exist" and "only owner can revoke token"
errors.  And when `PutState(t, _)` fails, `RegisterToken` and `RevokeToken` on `t`
return an error, not `nil`, and leave the world state as it is. -/
theorem store_failure_reported {V : Type} (c : Codec V) (ctx : TxContext) (w : World V)
    (t fileName : String) (fileSize : Int) (contentType owner cause : String)
    (hfail : ctx.getStateErr t = some cause) :
    RegisterToken c ctx w t fileName fileSize contentType owner =
      (w, some (.readFailed cause)) ∧
    GetToken c ctx w t = (w, .error (.readFailed cause)) ∧
    ValidateToken c ctx w t = (w, (false, some (.readFailed cause))) ∧
    RevokeToken c ctx w t owner = (w, some (.readFailed cause)) ∧
    (Error.readFailed cause).message = "failed to read from world state: " ++ cause ∧
    (∀ t', (Error.readFailed cause).message ≠ (Error.alreadyExists t').message ∧
      (Error.readFailed cause).message ≠ (Error.doesNotExist t').message ∧
      (Error.readFailed cause).message ≠ Error.onlyOwner.message) ∧
    ∀ (ctx' : TxContext) (cause' : String), ctx'.putStateErr t = some cause' →
      (RegisterToken c ctx' w t fileName fileSize contentType owner).1 = w ∧
      (RegisterToken c ctx' w t fileName fileSize contentType owner).2 ≠ none ∧
      (RevokeToken c ctx' w t owner).1 = w ∧ (RevokeToken c ctx' w t owner).2 ≠ none := by
  have hget : GetToken c ctx w t = (w, .error (.readFailed cause)) := by
    simp [GetToken, TxContext.GetState, hfail]
  have hget2 : (GetToken c ctx w t).2 = .error (.readFailed cause) := by rw [hget]
  refine ⟨by simp [RegisterToken, TxContext.GetState, hfail], hget,
    ValidateToken_error c ctx w t _ hget2, RevokeToken_error c ctx w t owner _ hget2, rfl,
    fun t' => ⟨?_, ?_, ?_⟩, fun ctx' cause' hput => ?_⟩
  · apply message_ne_of_head
    simp [Error.message, String.data_append]
  · apply message_ne_of_head
    simp [Error.message, String.data_append]
  · apply message_ne_of_head
    simp [Error.message, String.data_append]
  · have h1 := RegisterToken_writeFailed c ctx' w t fileName fileSize contentType owner
      cause' hput
    have h2 := RevokeToken_writeFailed c ctx' w t owner cause' hput
    exact ⟨h1.1, h1.2, h2.1, h2.2⟩

theorem store_failure_reported_witness :
    (TxContext.faulty (some "peer down") none 0).getStateErr "abc123" = some "peer down" ∧
    RegisterToken plainCodec (TxContext.faulty (some "peer down") none 0) (sampleWorld true)
      "abc123" "report.txt" 77 "text/plain" "alice" =
      (sampleWorld true, some (.readFailed "peer down")) ∧
    RevokeToken plainCodec (TxContext.faulty (some "peer down") none 0) (sampleWorld true)
      "abc123" "alice" = (sampleWorld true, some (.readFailed "peer down")) :=
  have h := store_failure_reported plainCodec (TxContext.faulty (some "peer down") none 0)
    (sampleWorld true) "abc123" "report.txt" 77 "text/plain" "alice" "peer down" rfl
  ⟨rfl, h.1, h.2.2.2.1⟩

/-! ## No validation of the arguments -/

/-- The errors of `RegisterToken`: each comes with its cause, and none is returned after
a write. -/
theorem RegisterToken_error_cases {V : Type} (c : Codec V) (ctx : TxContext) (w : World V)
    (token fileName : String) (fileSize : Int) (contentType owner : String) (e : Error)
    (h : (RegisterToken c ctx w token fileName fileSize contentType owner).2 = some e) :
    (RegisterToken c ctx w token fileName fileSize contentType owner).1 = w ∧
    ((∃ cause, e = .readFailed cause ∧ ctx.getStateErr token = some cause) ∨
     (e = .alreadyExists token ∧ getState w token ≠ none) ∨
     (∃ cause, e = .json cause ∧
        c.Marshal { Token := token, FileName := fileName, FileSize := fileSize,
                    ContentType := contentType, Owner := owner, Timestamp := ctx.now,
                    IsActive := true } = .error cause) ∨
     (∃ cause, e = .stub cause ∧ ctx.putStateErr token = some cause)) := by
  unfold RegisterToken TxContext.GetState TxContext.PutState at h ⊢
  cases hread : ctx.getStateErr token with
  | some err =>
    simp only [hread] at h ⊢
    injection h with h
    exact ⟨trivial, Or.inl ⟨err, h.symm, rfl⟩⟩
  | none =>
    cases hst : getState w token with
    | some bs =>
      simp only [hread, hst] at h ⊢
      injection h with h
      exact ⟨trivial, Or.inr (Or.inl ⟨h.symm, by simp⟩)⟩
    | none =>
      cases hm : c.Marshal
          { Token := token, FileName := fileName, FileSize := fileSize,
            ContentType := contentType, Owner := owner, Timestamp := ctx.now,
            IsActive := true } with
      | error err =>
        simp only [hread, hst, hm] at h ⊢
        injection h with h
        exact ⟨trivial, Or.inr (Or.inr (Or.inl ⟨err, h.symm, rfl⟩))⟩
      | ok bs =>
        cases hput : ctx.putStateErr token with
        | none => simp [hread, hst, hm, hput] at h
        | some err =>
          simp only [hread, hst, hm, hput] at h ⊢
          injection h with h
          exact ⟨trivial, Or.inr (Or.inr (Or.inr ⟨err, h.symm, rfl⟩))⟩

/-- C12, as the claim states it, fails: on the empty ledger, with every stub call
succeeding, `RegisterToken("abc123", "report.txt", -1, "text/plain", "alice")` returns
no error and creates the record, with `FileSize = -1`. -/
theorem RegisterToken_negative_size_accepted :
    (RegisterToken plainCodec (TxContext.healthy 0) [] "abc123" "report.txt" (-1)
      "text/plain" "alice").2 = none ∧
    getState (RegisterToken plainCodec (TxContext.healthy 0) [] "abc123" "report.txt" (-1)
      "text/plain" "alice").1 "abc123" =
      some { Token := "abc123", FileName := "report.txt", FileSize := -1,
             ContentType := "text/plain", Owner := "alice", Timestamp := 0,
             IsActive := true } := by
  decide

/-- C12, amended: `RegisterToken` does not validate its arguments.  With a negative
`fileSize`, no value under the token, `GetState` and `PutState` succeeding and a
lossless `json.Marshal`, it returns no error and `GetToken` then returns the record with
that `fileSize`.  And for every token, the empty one included, an error it returns is
the read failure, "already exists" for a key that has a value, the error of
`json.Marshal` or the error of `PutState`, and it then leaves the world state as it
is. -/
theorem RegisterToken_no_validation {V : Type} (c : Codec V) (hrt : c.RoundTrip)
    (htot : c.Total) (ctx ctx' : TxContext) (w : World V) (t f : String) (s : Int)
    (ct o : String) (hneg : s < 0) (hnone : getState w t = none)
    (hget : ctx.getStateErr t = none) (hput : ctx.putStateErr t = none)
    (hget' : ctx'.getStateErr t = none) :
    (RegisterToken c ctx w t f s ct o).2 = none ∧
    (GetToken c ctx' (RegisterToken c ctx w t f s ct o).1 t).2 =
      .ok { Token := t, FileName := f, FileSize := s, ContentType := ct, Owner := o,
            Timestamp := ctx.now, IsActive := true } ∧
    s < 0 ∧
    ∀ (ctx2 : TxContext) (w2 : World V) (t2 f2 : String) (s2 : Int) (ct2 o2 : String)
      (e : Error), (RegisterToken c ctx2 w2 t2 f2 s2 ct2 o2).2 = some e →
      (RegisterToken c ctx2 w2 t2 f2 s2 ct2 o2).1 = w2 ∧
      ((∃ cause, e = .readFailed cause ∧ ctx2.getStateErr t2 = some cause) ∨
       (e = .alreadyExists t2 ∧ getState w2 t2 ≠ none) ∨
       (∃ cause, e = .json cause ∧
          c.Marshal { Token := t2, FileName := f2, FileSize := s2, ContentType := ct2,
                      Owner := o2, Timestamp := ctx2.now, IsActive := true } =
            .error cause) ∨
       (∃ cause, e = .stub cause ∧ ctx2.putStateErr t2 = some cause)) := by
  obtain ⟨bs, hm⟩ := htot
    { Token := t, FileName := f, FileSize := s, ContentType := ct, Owner := o,
      Timestamp := ctx.now, IsActive := true }
  have heq : RegisterToken c ctx w t f s ct o = (putState w t bs, none) := by
    simp [RegisterToken, TxContext.GetState, TxContext.PutState, hget, hnone, hm, hput]
  refine ⟨by rw [heq], ?_, hneg, fun ctx2 w2 t2 f2 s2 ct2 o2 e he =>
    RegisterToken_error_cases c ctx2 w2 t2 f2 s2 ct2 o2 e he⟩
  rw [heq, GetToken_reads c ctx' (putState w t bs) t _ hget'
    ⟨bs, getState_putState_self w t bs, hrt _ bs hm⟩]

theorem RegisterToken_no_validation_witness :
    (-5 : Int) < 0 ∧ getState (sampleWorld true) "ffff" = none ∧
    (RegisterToken plainCodec (TxContext.healthy 9) (sampleWorld true)
      "ffff" "scan.png" (-5) "image/png" "carol").2 = none :=
  ⟨by decide, by decide, (RegisterToken_no_validation plainCodec plainCodec_roundTrip
    plainCodec_total (TxContext.healthy 9) (TxContext.healthy 10) (sampleWorld true)
    "ffff" "scan.png" (-5) "image/png" "carol" (by decide) (by decide) rfl rfl rfl).1⟩

/-! ## The key order and the shape of reachable ledgers -/

theorem charsBefore_trans (a b c : List Char) (h1 : charsBefore a b = true)
    (h2 : charsBefore b c = true) : charsBefore a c = true := by
  induction a generalizing b c with
  | nil =>
    cases c with
    | nil => cases b <;> simp [charsBefore] at h2
    | cons z zs => simp [charsBefore]
  | cons x xs ih =>
    cases b with
    | nil => simp [charsBefore] at h1
    | cons y ys =>
      cases c with
      | nil => simp [charsBefore] at h2
      | cons z zs =>
        simp only [charsBefore] at h1 h2 ⊢
        split_ifs at h1 h2 ⊢ <;> first | rfl | omega | exact ih _ _ h1 h2

theorem charsBefore_connected (a b : List Char) (h : charsBefore a b = false) (hne : a ≠ b) :
    charsBefore b a = true := by
  induction a generalizing b with
  | nil =>
    cases b with
    | nil => exact absurd rfl hne
    | cons y ys => simp [charsBefore] at h
  | cons x xs ih =>
    cases b with
    | nil => simp [charsBefore]
    | cons y ys =>
      simp only [charsBefore] at h ⊢
      by_cases hlt : x.toNat < y.toNat
      · simp [hlt] at h
      · by_cases heq : x.toNat = y.toNat
        · have hxy : x = y := Char.ext (UInt32.ext heq)
          subst hxy
          simp only [lt_self_iff_false, if_false, if_true] at h ⊢
          exact ih ys h (fun hxs => hne (by rw [hxs]))
        · have : y.toNat < x.toNat := by omega
          simp [this]

theorem keyBefore_trans {a b c : String} (h1 : keyBefore a b = true)
    (h2 : keyBefore b c = true) : keyBefore a c = true :=
  charsBefore_trans a.data b.data c.data h1 h2

theorem keyBefore_connected {a b : String} (h : ¬ keyBefore a b = true) (hne : a ≠ b) :
    keyBefore b a = true := by
  apply charsBefore_connected a.data b.data
  · simpa [keyBefore] using h
  · exact fun hd => hne (String.ext hd)

theorem putState_cons_before {V : Type} (k : String) (v : V) (rest : World V)
    (key : String) (value : V) (h : keyBefore k key = true) :
    putState ((k, v) :: rest) key value = (k, v) :: putState rest key value := by
  simp [putState, h]

theorem putState_cons_same {V : Type} (v : V) (rest : World V) (key : String) (value : V) :
    putState ((key, v) :: rest) key value = (key, value) :: rest := by
  simp [putState, keyBefore_self]

theorem putState_cons_after {V : Type} (k : String) (v : V) (rest : World V)
    (key : String) (value : V) (h1 : ¬ keyBefore k key = true) (h2 : k ≠ key) :
    putState ((k, v) :: rest) key value = (key, value) :: (k, v) :: rest := by
  simp [putState, h1, h2]

theorem mem_putState {V : Type} (w : World V) (key : String) (value : V) (e : String × V)
    (h : e ∈ putState w key value) : e = (key, value) ∨ e ∈ w := by
  induction w with
  | nil =>
    simp only [putState, List.mem_singleton] at h
    exact Or.inl h
  | cons kv rest ih =>
    obtain ⟨k, v⟩ := kv
    by_cases h1 : keyBefore k key = true
    · rw [putState_cons_before k v rest key value h1] at h
      rcases List.mem_cons.mp h with h | h
      · exact Or.inr (by rw [h]; exact List.mem_cons_self _ _)
      · rcases ih h with h' | h'
        · exact Or.inl h'
        · exact Or.inr (List.mem_cons_of_mem _ h')
    · by_cases h2 : k = key
      · subst h2
        rw [putState_cons_same] at h
        rcases List.mem_cons.mp h with h | h
        · exact Or.inl h
        · exact Or.inr (List.mem_cons_of_mem _ h)
      · rw [putState_cons_after k v rest key value h1 h2] at h
        rcases List.mem_cons.mp h with h | h
        · exact Or.inl h
        · exact Or.inr h

theorem KeysSorted_putState {V : Type} (w : World V) (key : String) (value : V)
    (h : KeysSorted w) : KeysSorted (putState w key value) := by
  unfold KeysSorted at h ⊢
  induction w with
  | nil => simp [putState]
  | cons kv rest ih =>
    obtain ⟨k, v⟩ := kv
    rw [List.pairwise_cons] at h
    obtain ⟨hhead, hrest⟩ := h
    by_cases h1 : keyBefore k key = true
    · rw [putState_cons_before k v rest key value h1, List.pairwise_cons]
      refine ⟨fun e he => ?_, ih hrest⟩
      rcases mem_putState rest key value e he with h' | h'
      · rw [h']; exact h1
      · exact hhead e h'
    · by_cases h2 : k = key
      · subst h2
        rw [putState_cons_same, List.pairwise_cons]
        exact ⟨hhead, hrest⟩
      · have h3 : keyBefore key k = true := keyBefore_connected h1 h2
        rw [putState_cons_after k v rest key value h1 h2, List.pairwise_cons,
          List.pairwise_cons]
        refine ⟨fun e he => ?_, hhead, hrest⟩
        rcases List.mem_cons.mp he with h' | h'
        · rw [h']; exact h3
        · exact keyBefore_trans h3 (hhead e h')

theorem mem_of_getState {V : Type} (w : World V) (key : String) (value : V)
    (h : getState w key = some value) : (key, value) ∈ w := by
  induction w with
  | nil => simp [getState] at h
  | cons kv rest ih =>
    obtain ⟨k, v⟩ := kv
    by_cases hk : k = key
    · subst hk
      simp only [getState, if_true] at h
      injection h with h
      rw [h]
      exact List.mem_cons_self _ _
    · simp only [getState, hk, if_false] at h
      exact List.mem_cons_of_mem _ (ih h)

theorem getState_of_mem {V : Type} (w : World V) (hs : KeysSorted w) (key : String)
    (value : V) (h : (key, value) ∈ w) : getState w key = some value := by
  unfold KeysSorted at hs
  induction w with
  | nil => simp at h
  | cons kv rest ih =>
    obtain ⟨k, v⟩ := kv
    rw [List.pairwise_cons] at hs
    rcases List.mem_cons.mp h with h' | h'
    · injection h' with hk hv
      subst hk
      subst hv
      simp [getState]
    · have hne : k ≠ key := ne_of_keyBefore (hs.1 (key, value) h')
      simp only [getState, hne, if_false]
      exact ih hs.2 h'

theorem KeysSorted_nodup {V : Type} (w : World V) (hs : KeysSorted w) :
    (w.map (fun e => e.1)).Nodup := by
  unfold KeysSorted at hs
  rw [List.Nodup, List.pairwise_map]
  exact hs.imp (fun h => ne_of_keyBefore h)

/-- What an invocation writes: nothing, or under one token the marshalled bytes of a
record, which is a new record of that token or the record read there with `IsActive`
false. -/
theorem invoke_put {V : Type} (c : Codec V) (ctx : TxContext) (w : World V) (call : Call) :
    invoke c ctx w call = w ∨
    ∃ token r bs, c.Marshal r = .ok bs ∧ invoke c ctx w call = putState w token bs ∧
      (r.Token = token ∨ ∃ r0, Reads c w token r0 ∧ r = { r0 with IsActive := false }) := by
  cases call with
  | RegisterToken token fileName fileSize contentType owner =>
    cases hres : (RegisterToken c ctx w token fileName fileSize contentType owner).2 with
    | none =>
      obtain ⟨bs, _, hm, hw⟩ :=
        RegisterToken_success c ctx w token fileName fileSize contentType owner hres
      exact Or.inr ⟨token, _, bs, hm, hw, Or.inl rfl⟩
    | some e =>
      exact Or.inl
        (RegisterToken_error_cases c ctx w token fileName fileSize contentType owner e hres).1
  | GetToken token => left; exact GetToken_world c ctx w token
  | ValidateToken token => left; exact ValidateToken_world c ctx w token
  | RevokeToken token owner =>
    rcases RevokeToken_world c ctx w token owner with h | h
    · left; exact h
    · obtain ⟨r, bs, hr, _, hm, hw⟩ := h
      exact Or.inr ⟨token, _, bs, hm, hw, Or.inr ⟨r, hr, rfl⟩⟩
  | GetAllTokens => left; exact GetAllTokens_world c ctx w

/-- In a ledger of marshalled records, the record read under a token is a record of
that token. -/
theorem Reads_token {V : Type} (c : Codec V) (hrt : c.RoundTrip) (w : World V)
    (hm : Marshalled c w) (token : String) (r : FileToken) (h : Reads c w token r) :
    r.Token = token := by
  obtain ⟨bs, hbs, hun⟩ := h
  obtain ⟨r1, hm1, ht1⟩ := hm (token, bs) (mem_of_getState w token bs hbs)
  have := hrt r1 bs hm1
  rw [hun] at this
  injection this with this
  rw [this]
  exact ht1

theorem wellFormed_invoke {V : Type} (c : Codec V) (hrt : c.RoundTrip) (ctx : TxContext)
    (w : World V) (call : Call) (h : KeysSorted w ∧ Marshalled c w) :
    KeysSorted (invoke c ctx w call) ∧ Marshalled c (invoke c ctx w call) := by
  rcases invoke_put c ctx w call with hw | ⟨token, r, bs, hm, hw, hr⟩
  · rw [hw]; exact h
  · rw [hw]
    refine ⟨KeysSorted_putState w token bs h.1, fun e he => ?_⟩
    rcases mem_putState w token bs e he with he' | he'
    · rw [he']
      refine ⟨r, hm, ?_⟩
      rcases hr with hr | ⟨r0, hr0, hr⟩
      · exact hr
      · rw [hr]
        exact Reads_token c hrt w h.2 token r0 hr0
    · exact h.2 e he'

theorem wellFormed_run {V : Type} (c : Codec V) (hrt : c.RoundTrip)
    (calls : List (TxContext × Call)) (w : World V) (h : KeysSorted w ∧ Marshalled c w) :
    KeysSorted (run c w calls) ∧ Marshalled c (run c w calls) := by
  induction calls generalizing w with
  | nil => exact h
  | cons head rest ih =>
    obtain ⟨ctx, call⟩ := head
    exact ih (invoke c ctx w call) (wellFormed_invoke c hrt ctx w call h)

theorem wellFormed_nil {V : Type} (c : Codec V) :
    KeysSorted ([] : World V) ∧ Marshalled c ([] : World V) :=
  ⟨List.Pairwise.nil, fun e he => absurd he (List.not_mem_nil e)⟩

/-- With the iterator never failing and every value unmarshalling, the loop of
`GetAllTokens` appends to the slice the records of the entries, in order. -/
theorem collectTokens_ok {V : Type} (c : Codec V) (ctx : TxContext)
    (hnext : ∀ i, ctx.nextErr i = none) (l : List (String × V))
    (hl : ∀ e ∈ l, ∃ r, c.Unmarshal e.2 = .ok r) (i : Nat) (tokens : List FileToken) :
    ∃ rs, collectTokens c ctx i l tokens = .ok (tokens ++ rs) ∧
      List.Forall₂ (fun e r => c.Unmarshal e.2 = .ok r) l rs := by
  induction l generalizing i tokens with
  | nil => exact ⟨[], by simp [collectTokens], List.Forall₂.nil⟩
  | cons e rest ih =>
    obtain ⟨k, value⟩ := e
    obtain ⟨r, hr⟩ := hl (k, value) (List.mem_cons_self _ _)
    obtain ⟨rs, hrs, hall⟩ :=
      ih (fun e he => hl e (List.mem_cons_of_mem _ he)) (i + 1) (tokens ++ [r])
    refine ⟨r :: rs, ?_, List.Forall₂.cons hr hall⟩
    simp only at hr
    simp only [collectTokens, hnext i, hr, hrs]
    simp

theorem forall₂_mem_left {α β : Type} {R : α → β → Prop} {l : List α} {rs : List β}
    (h : List.Forall₂ R l rs) (a : α) (ha : a ∈ l) : ∃ b ∈ rs, R a b := by
  induction h with
  | nil => simp at ha
  | cons hab _ ih =>
    rcases List.mem_cons.mp ha with ha' | ha'
    · subst ha'
      exact ⟨_, List.mem_cons_self _ _, hab⟩
    · obtain ⟨b, hb, hr⟩ := ih ha'
      exact ⟨b, List.mem_cons_of_mem _ hb, hr⟩

theorem forall₂_mem_right {α β : Type} {R : α → β → Prop} {l : List α} {rs : List β}
    (h : List.Forall₂ R l rs) (b : β) (hb : b ∈ rs) : ∃ a ∈ l, R a b := by
  induction h with
  | nil => simp at hb
  | cons hab _ ih =>
    rcases List.mem_cons.mp hb with hb' | hb'
    · subst hb'
      exact ⟨_, List.mem_cons_self _ _, hab⟩
    · obtain ⟨a, ha, hr⟩ := ih hb'
      exact ⟨a, List.mem_cons_of_mem _ ha, hr⟩

theorem forall₂_map_eq {α β γ : Type} {R : α → β → Prop} {l : List α} {rs : List β}
    (f : α → γ) (g : β → γ) (h : List.Forall₂ R l rs) (hfg : ∀ a b, R a b → g b = f a) :
    rs.map g = l.map f := by
  induction h with
  | nil => rfl
  | cons hab _ ih => simp [hfg _ _ hab, ih]

/-- In a ledger with sorted keys whose values are marshalled records of their keys,
`GetAllTokens` with a working range query returns the records of the entries, one per
key. -/
theorem GetAllTokens_wellFormed {V : Type} (c : Codec V) (hrt : c.RoundTrip)
    (ctx : TxContext) (w : World V) (hw : KeysSorted w ∧ Marshalled c w)
    (hrange : ctx.rangeErr = none) (hnext : ∀ i, ctx.nextErr i = none) :
    ∃ rs, GetAllTokens c ctx w = (w, .ok rs) ∧
      rs.length = w.length ∧
      rs.map (fun r => r.Token) = w.map (fun e => e.1) ∧
      (rs.map (fun r => r.Token)).Nodup ∧
      (∀ t r, Reads c w t r ↔ (r ∈ rs ∧ r.Token = t)) ∧
      (∀ t, getState w t ≠ none ↔ t ∈ rs.map (fun r => r.Token)) := by
  have hun : ∀ e ∈ w, ∃ r, c.Unmarshal e.2 = .ok r := by
    intro e he
    obtain ⟨r, hm, _⟩ := hw.2 e he
    exact ⟨r, hrt r e.2 hm⟩
  obtain ⟨rs, hrs, hall⟩ := collectTokens_ok c ctx hnext w hun 0 []
  have htoken : ∀ e r, e ∈ w → c.Unmarshal e.2 = .ok r → r.Token = e.1 := by
    intro e r he hr
    exact Reads_token c hrt w hw.2 e.1 r ⟨e.2, getState_of_mem w hw.1 e.1 e.2 he, hr⟩
  have hall' : List.Forall₂ (fun e r => e ∈ w ∧ c.Unmarshal e.2 = .ok r) w rs := by
    have hsub : ∀ l : List (String × V), (∀ e ∈ l, e ∈ w) → ∀ rs' : List FileToken,
        List.Forall₂ (fun e r => c.Unmarshal e.2 = .ok r) l rs' →
        List.Forall₂ (fun e r => e ∈ w ∧ c.Unmarshal e.2 = .ok r) l rs' := by
      intro l hl rs' h
      induction h with
      | nil => exact List.Forall₂.nil
      | cons hab _ ih =>
        exact List.Forall₂.cons ⟨hl _ (List.mem_cons_self _ _), hab⟩
          (ih (fun e he => hl e (List.mem_cons_of_mem _ he)))
    exact hsub w (fun e he => he) rs hall
  have hkeys : rs.map (fun r => r.Token) = w.map (fun e => e.1) :=
    forall₂_map_eq (fun e => e.1) (fun r => r.Token) hall'
      (fun e r h => htoken e r h.1 h.2)
  refine ⟨rs, ?_, hall.length_eq.symm, hkeys, ?_, ?_, ?_⟩
  · simp only [GetAllTokens, hrange, hrs, List.nil_append]
  · rw [hkeys]
    exact KeysSorted_nodup w hw.1
  · intro t r
    constructor
    · intro hr
      obtain ⟨bs, hbs, hunm⟩ := hr
      have hmem := mem_of_getState w t bs hbs
      obtain ⟨r', hr', _, hun'⟩ := forall₂_mem_left hall' (t, bs) hmem
      simp only at hun'
      rw [hunm] at hun'
      injection hun' with hun'
      subst hun'
      exact ⟨hr', htoken (t, bs) r hmem hunm⟩
    · intro hr
      obtain ⟨hmem, htok⟩ := hr
      obtain ⟨e, _, he, hun'⟩ := forall₂_mem_right hall' r hmem
      have hk : e.1 = t := by rw [← htoken e r he hun', htok]
      exact ⟨e.2, by rw [← hk]; exact getState_of_mem w hw.1 e.1 e.2 he, hun'⟩
  · intro t
    rw [hkeys]
    constructor
    · intro h
      cases hst : getState w t with
      | none => exact absurd hst h
      | some bs =>
        exact List.mem_map.mpr ⟨(t, bs), mem_of_getState w t bs hst, rfl⟩
    · intro h
      obtain ⟨e, he, hk⟩ := List.mem_map.mp h
      rw [← hk, getState_of_mem w hw.1 e.1 e.2 he]
      simp

/-! ## Listing the ledger -/

/-- C14: in every ledger reached from the empty ledger by a sequence of invocations
(whatever the stub did in them), `GetAllTokens` with a working range query returns a
list `rs` of records and leaves the ledger as it is: `rs` has one record per entry of
the ledger, in key order; its tokens are the keys of the ledger, without repetition; a
record belongs to `rs` exactly when it is the record read under its token, whether
active or revoked; and a token occurs in `rs` exactly when it has a value in the
ledger.  On the empty ledger the list is empty. -/
theorem GetAllTokens_lists_ledger {V : Type} (c : Codec V) (hrt : c.RoundTrip)
    (calls : List (TxContext × Call)) (ctx : TxContext)
    (hrange : ctx.rangeErr = none) (hnext : ∀ i, ctx.nextErr i = none) :
    (∃ rs, GetAllTokens c ctx (run c [] calls) = (run c [] calls, .ok rs) ∧
      rs.length = (run c [] calls).length ∧
      rs.map (fun r => r.Token) = (run c [] calls).map (fun e => e.1) ∧
      (rs.map (fun r => r.Token)).Nodup ∧
      (∀ t r, Reads c (run c [] calls) t r ↔ (r ∈ rs ∧ r.Token = t)) ∧
      (∀ t, getState (run c [] calls) t ≠ none ↔ t ∈ rs.map (fun r => r.Token))) ∧
    GetAllTokens c ctx ([] : World V) = ([], .ok []) := by
  refine ⟨GetAllTokens_wellFormed c hrt ctx (run c [] calls)
    (wellFormed_run c hrt calls [] (wellFormed_nil c)) hrange hnext, ?_⟩
  simp [GetAllTokens, hrange, collectTokens]

theorem GetAllTokens_lists_ledger_witness :
    (TxContext.healthy 9).rangeErr = none ∧
    GetAllTokens plainCodec (TxContext.healthy 9) ([] : World FileToken) = ([], .ok []) ∧
    (GetAllTokens plainCodec (TxContext.healthy 9)
      (run plainCodec []
        [(TxContext.healthy 0, .RegisterToken "abc123" "report.txt" 77 "text/plain" "alice"),
         (TxContext.healthy 1, .RegisterToken "abb" "scan.png" 3 "image/png" "bob"),
         (TxContext.healthy 2, .RevokeToken "abc123" "alice")])).2 =
      .ok [{ Token := "abb", FileName := "scan.png", FileSize := 3,
             ContentType := "image/png", Owner := "bob", Timestamp := 1, IsActive := true },
           sampleToken false] :=
  ⟨rfl, (GetAllTokens_lists_ledger plainCodec plainCodec_roundTrip
    [(TxContext.healthy 0, .RegisterToken "abc123" "report.txt" 77 "text/plain" "alice"),
     (TxContext.healthy 1, .RegisterToken "abb" "scan.png" 3 "image/png" "bob"),
     (TxContext.healthy 2, .RevokeToken "abc123" "alice")]
    (TxContext.healthy 9) rfl (fun _ => rfl)).2, rfl⟩

/-! ## Content-derived tokens -/

theorem EncodeToString_length (src : List Byte) :
    (EncodeToString src).length = 2 * src.length := by
  unfold EncodeToString
  rw [String.length]
  induction src with
  | nil => rfl
  | cons v rest ih =>
    simp only [List.flatMap_cons, List.length_append, List.length_cons, List.length_nil, ih]
    omega

set_option maxRecDepth 100000 in
theorem hextable_digit (v : Byte) :
    hextable.getD (v.val >>> 4) '?' ∈ hextable ∧
    hextable.getD (v.val &&& 0x0f) '?' ∈ hextable := by
  revert v
  decide

theorem EncodeToString_hex (src : List Byte) (ch : Char)
    (h : ch ∈ (EncodeToString src).data) : ch ∈ hextable := by
  unfold EncodeToString at h
  simp only [List.mem_flatMap] at h
  obtain ⟨v, _, hv⟩ := h
  rcases List.mem_cons.mp hv with hv | hv
  · rw [hv]; exact (hextable_digit v).1
  · rw [List.mem_singleton] at hv
    rw [hv]; exact (hextable_digit v).2

/-- C18: for every byte sequence `content`, the empty one included, and whatever
function of 32-byte values `sha256.Sum256` is, `generateToken(content)` is the
`hex.EncodeToString` of the 32 bytes of `Sum256(content)`: a string of exactly 64
characters, each one of `0123456789abcdef`; and it is a function of `content` alone. -/
theorem generateToken_hex (Sum256 : List Byte → Digest) (content : List Byte) :
    (generateToken Sum256 content).length = 64 ∧
    (∀ ch ∈ (generateToken Sum256 content).data, ch ∈ "0123456789abcdef".data) ∧
    generateToken Sum256 content = EncodeToString (Sum256 content).bytes ∧
    (Sum256 content).bytes.length = 32 ∧
    (generateToken Sum256 []).length = 64 ∧
    ∀ content', content' = content →
      generateToken Sum256 content' = generateToken Sum256 content := by
  have hlen : ∀ x, (generateToken Sum256 x).length = 64 := by
    intro x
    simp only [generateToken]
    rw [EncodeToString_length, (Sum256 x).size]
  refine ⟨hlen content, fun ch hch => EncodeToString_hex (Sum256 content).bytes ch hch, rfl,
    (Sum256 content).size, hlen [], fun content' h => by rw [h]⟩

/-! ## The upload handler of the web demo -/

/-- C19 (evaluation of the code): after an upload of `content` as `fn1` at time `now1`
the map holds the record of that upload under the token of `content`; after a second
upload of the same `content` as `fn2` at time `now2` it holds, under the same token,
the record of the second upload: `FileName` and `Timestamp` were overwritten.  The
same happens to whatever record the map held under that token before the first
upload. -/
theorem uploadHandler_overwrites (Sum256 : List Byte → Digest)
    (store : String → List Byte → String → String → Option String) (now1 now2 : Int)
    (m : World FileToken) (content : List Byte) (fn1 fn2 ct : String) :
    getState
      (uploadHandler { Sum256 := Sum256, now := now1, storeFileInCouchDB := store } m
        (UploadRequest.ofFile content fn1 ct)).1 (generateToken Sum256 content) =
      some { Token := generateToken Sum256 content, FileName := fn1,
             FileSize := content.length, ContentType := ct, Owner := "web-user",
             Timestamp := now1, IsActive := true } ∧
    getState
      (uploadHandler { Sum256 := Sum256, now := now2, storeFileInCouchDB := store }
        (uploadHandler { Sum256 := Sum256, now := now1, storeFileInCouchDB := store } m
          (UploadRequest.ofFile content fn1 ct)).1
        (UploadRequest.ofFile content fn2 ct)).1 (generateToken Sum256 content) =
      some { Token := generateToken Sum256 content, FileName := fn2,
             FileSize := content.length, ContentType := ct, Owner := "web-user",
             Timestamp := now2, IsActive := true } := by
  have hstep : ∀ (now : Int) (m' : World FileToken) (fn : String),
      (uploadHandler { Sum256 := Sum256, now := now, storeFileInCouchDB := store } m'
        (UploadRequest.ofFile content fn ct)).1 =
      putState m' (generateToken Sum256 content)
        { Token := generateToken Sum256 content, FileName := fn,
          FileSize := content.length, ContentType := ct, Owner := "web-user",
          Timestamp := now, IsActive := true } := by
    intro now m' fn
    simp only [uploadHandler, UploadRequest.ofFile]
    cases store (generateToken Sum256 content) content fn ct <;> simp
  rw [hstep now1 m fn1, hstep now2 _ fn2]
  exact ⟨getState_putState_self _ _ _, getState_putState_self _ _ _⟩

/-! ## The upload handler of the application -/

/-- C20: `uploadFile` computes the token `generateToken(content)`, calls
`storeFileInCouchDB` with it and only then, if that returned no error, calls
`registerTokenOnBlockchain` with the same token.  For a request that parsed: when the
store returns an error the only call is the store and the response is 500 "Failed to
store file: " with that error; when the store returns `nil` the calls are the store
followed by the registration, and the response is 200 with the upload token when the
registration returns `nil` and 500 "Failed to register token: " with its error
otherwise.  A request that did not parse makes no call.  So when the store returns an
error for the request, no call of `uploadFile` is a `registerTokenOnBlockchain`, and
the response is an error text with a status other than 200, not the upload
response. -/
theorem uploadFile_store_before_register (env : AppEnv) (r : UploadRequest) (err : String)
    (hstore : env.storeFileInCouchDB (generateToken env.Sum256 r.content) r.content
      r.Filename r.ContentType = some err) :
    (∀ call ∈ (uploadFile env r).1, ∀ t f s ct o,
      call ≠ AppCall.registerTokenOnBlockchain t f s ct o) ∧
    (∃ message, (uploadFile env r).2.body = .error message) ∧
    (uploadFile env r).2.status ≠ 200 ∧
    (r.parseFormErr = false → r.formFileErr = false → r.readAllErr = false →
      uploadFile env r =
        ([AppCall.storeFileInCouchDB (generateToken env.Sum256 r.content) r.content
            r.Filename r.ContentType],
         { status := 500, body := .error ("Failed to store file: " ++ err) })) ∧
    (∀ (env2 : AppEnv) (r2 : UploadRequest),
      (uploadFile env2 r2).1 = [] ∨
      (uploadFile env2 r2).1 =
        [AppCall.storeFileInCouchDB (generateToken env2.Sum256 r2.content) r2.content
          r2.Filename r2.ContentType] ∨
      ((uploadFile env2 r2).1 =
        [AppCall.storeFileInCouchDB (generateToken env2.Sum256 r2.content) r2.content
          r2.Filename r2.ContentType,
         AppCall.registerTokenOnBlockchain (generateToken env2.Sum256 r2.content)
          r2.Filename r2.content.length r2.ContentType "user1"] ∧
       env2.storeFileInCouchDB (generateToken env2.Sum256 r2.content) r2.content
          r2.Filename r2.ContentType = none)) ∧
    (∀ (env2 : AppEnv) (r2 : UploadRequest),
      r2.parseFormErr = false → r2.formFileErr = false → r2.readAllErr = false →
      (∀ e, env2.storeFileInCouchDB (generateToken env2.Sum256 r2.content) r2.content
          r2.Filename r2.ContentType = some e →
        uploadFile env2 r2 =
          ([AppCall.storeFileInCouchDB (generateToken env2.Sum256 r2.content) r2.content
              r2.Filename r2.ContentType],
           { status := 500, body := .error ("Failed to store file: " ++ e) })) ∧
      (env2.storeFileInCouchDB (generateToken env2.Sum256 r2.content) r2.content
          r2.Filename r2.ContentType = none →
        (env2.registerTokenOnBlockchain (generateToken env2.Sum256 r2.content)
            r2.Filename r2.content.length r2.ContentType "user1" = none →
          uploadFile env2 r2 =
            ([AppCall.storeFileInCouchDB (generateToken env2.Sum256 r2.content) r2.content
                r2.Filename r2.ContentType,
              AppCall.registerTokenOnBlockchain (generateToken env2.Sum256 r2.content)
                r2.Filename r2.content.length r2.ContentType "user1"],
             { status := 200,
               body := .upload
                 { Token := generateToken env2.Sum256 r2.content,
                   Message := "File uploaded successfully",
                   FileName := r2.Filename } })) ∧
        (∀ e, env2.registerTokenOnBlockchain (generateToken env2.Sum256 r2.content)
            r2.Filename r2.content.length r2.ContentType "user1" = some e →
          uploadFile env2 r2 =
            ([AppCall.storeFileInCouchDB (generateToken env2.Sum256 r2.content) r2.content
                r2.Filename r2.ContentType,
              AppCall.registerTokenOnBlockchain (generateToken env2.Sum256 r2.content)
                r2.Filename r2.content.length r2.ContentType "user1"],
             { status := 500, body := .error ("Failed to register token: " ++ e) })))) ∧
    ∀ (env2 : AppEnv) (r2 : UploadRequest),
      (r2.parseFormErr = true →
        uploadFile env2 r2 = ([], { status := 400, body := .error "Unable to parse form" })) ∧
      (r2.parseFormErr = false → r2.formFileErr = true →
        uploadFile env2 r2 = ([], { status := 400, body := .error "Unable to get file" })) ∧
      (r2.parseFormErr = false → r2.formFileErr = false → r2.readAllErr = true →
        uploadFile env2 r2 = ([], { status := 500, body := .error "Unable to read file" })) := by
  refine ⟨?_, ?_, ?_, ?_, ?_, ?_, ?_⟩
  · intro call hcall t f s ct o
    unfold uploadFile at hcall
    split_ifs at hcall
    · simp at hcall
    · simp at hcall
    · simp at hcall
    · simp only [hstore, List.mem_singleton] at hcall
      rw [hcall]
      exact fun h => AppCall.noConfusion h
  · unfold uploadFile
    split_ifs
    · exact ⟨_, rfl⟩
    · exact ⟨_, rfl⟩
    · exact ⟨_, rfl⟩
    · simp only [hstore]
      exact ⟨_, rfl⟩
  · unfold uploadFile
    split_ifs
    · simp
    · simp
    · simp
    · simp only [hstore]
      simp
  · intro h1 h2 h3
    simp [uploadFile, h1, h2, h3, hstore]
  · intro env2 r2
    unfold uploadFile
    split_ifs
    · left; rfl
    · left; rfl
    · left; rfl
    · cases hs : env2.storeFileInCouchDB (generateToken env2.Sum256 r2.content) r2.content
          r2.Filename r2.ContentType with
      | some e => right; left; simp [hs]
      | none =>
        right; right
        cases hreg : env2.registerTokenOnBlockchain (generateToken env2.Sum256 r2.content)
            r2.Filename r2.content.length r2.ContentType "user1" with
        | some e => simp [hs, hreg]
        | none => simp [hs, hreg]
  · intro env2 r2 h1 h2 h3
    refine ⟨fun e hs => ?_, fun hs => ⟨fun hreg => ?_, fun e hreg => ?_⟩⟩
    · simp [uploadFile, h1, h2, h3, hs]
    · simp [uploadFile, h1, h2, h3, hs, hreg]
    · simp [uploadFile, h1, h2, h3, hs, hreg]
  · intro env2 r2
    refine ⟨fun h1 => ?_, fun h1 h2 => ?_, fun h1 h2 h3 => ?_⟩
    · simp [uploadFile, h1]
    · simp [uploadFile, h1, h2]
    · simp [uploadFile, h1, h2, h3]

theorem uploadFile_store_before_register_witness :
    (sampleAppEnv (some "CouchDB error: 503 Service Unavailable") none).storeFileInCouchDB
      (generateToken sampleSum256 [1, 2, 3]) [1, 2, 3] "report.txt" "text/plain" =
      some "CouchDB error: 503 Service Unavailable" ∧
    (uploadFile (sampleAppEnv (some "CouchDB error: 503 Service Unavailable") none)
      (UploadRequest.ofFile [1, 2, 3] "report.txt" "text/plain")).2.status ≠ 200 ∧
    (uploadFile (sampleAppEnv none none)
      (UploadRequest.ofFile [1, 2, 3] "report.txt" "text/plain")).2.status = 200 ∧
    uploadFile (sampleAppEnv (some "CouchDB error: 503 Service Unavailable") none)
        (UploadRequest.ofFile [1, 2, 3] "report.txt" "text/plain") =
      ([AppCall.storeFileInCouchDB (generateToken sampleSum256 [1, 2, 3]) [1, 2, 3]
          "report.txt" "text/plain"],
       { status := 500,
         body := .error ("Failed to store file: " ++
           "CouchDB error: 503 Service Unavailable") }) ∧
    uploadFile (sampleAppEnv none none)
        (UploadRequest.ofFile [1, 2, 3] "report.txt" "text/plain") =
      ([AppCall.storeFileInCouchDB (generateToken sampleSum256 [1, 2, 3]) [1, 2, 3]
          "report.txt" "text/plain",
        AppCall.registerTokenOnBlockchain (generateToken sampleSum256 [1, 2, 3])
          "report.txt" 3 "text/plain" "user1"],
       { status := 200,
         body := .upload
           { Token := generateToken sampleSum256 [1, 2, 3],
             Message := "File uploaded successfully",
             FileName := "report.txt" } }) :=
  have h := uploadFile_store_before_register
    (sampleAppEnv (some "CouchDB error: 503 Service Unavailable") none)
    (UploadRequest.ofFile [1, 2, 3] "report.txt" "text/plain")
    "CouchDB error: 503 Service Unavailable" rfl
  ⟨rfl, h.2.2.1, rfl, h.2.2.2.1 rfl rfl rfl,
    ((h.2.2.2.2.2.1 (sampleAppEnv none none)
      (UploadRequest.ofFile [1, 2, 3] "report.txt" "text/plain") rfl rfl rfl).2 rfl).1 rfl⟩

/-! ## The web demo registers before it stores -/

/-- C21 (evaluation of the code): when `storeFileInCouchDB` returns an error, the
handler `uploadHandler` answers 500 "Failed to store file: ..." and has already
assigned the record of the upload to `blockchainTokens`; on the empty map, the map
after the request holds a record under the token of the content that it did not hold
before. -/
theorem uploadHandler_registers_before_store (Sum256 : List Byte → Digest) (now : Int)
    (err : String) (m : World FileToken) (content : List Byte) (fn ct : String) :
    uploadHandler { Sum256 := Sum256, now := now, storeFileInCouchDB := fun _ _ _ _ => some err }
        m (UploadRequest.ofFile content fn ct) =
      (putState m (generateToken Sum256 content)
          { Token := generateToken Sum256 content, FileName := fn,
            FileSize := content.length, ContentType := ct, Owner := "web-user",
            Timestamp := now, IsActive := true },
        { status := 500, body := .error ("Failed to store file: " ++ err) }) ∧
    getState ([] : World FileToken) (generateToken Sum256 content) = none ∧
    getState
      (uploadHandler
        { Sum256 := Sum256, now := now, storeFileInCouchDB := fun _ _ _ _ => some err } []
        (UploadRequest.ofFile content fn ct)).1 (generateToken Sum256 content) =
      some { Token := generateToken Sum256 content, FileName := fn,
             FileSize := content.length, ContentType := ct, Owner := "web-user",
             Timestamp := now, IsActive := true } := by
  have hstep : ∀ m' : World FileToken,
      uploadHandler
          { Sum256 := Sum256, now := now, storeFileInCouchDB := fun _ _ _ _ => some err }
          m' (UploadRequest.ofFile content fn ct) =
        (putState m' (generateToken Sum256 content)
            { Token := generateToken Sum256 content, FileName := fn,
              FileSize := content.length, ContentType := ct, Owner := "web-user",
              Timestamp := now, IsActive := true },
          { status := 500, body := .error ("Failed to store file: " ++ err) }) := by
    intro m'
    simp [uploadHandler, UploadRequest.ofFile]
  refine ⟨hstep m, rfl, ?_⟩
  rw [hstep []]
  exact getState_putState_self _ _ _

/-! ## Records are keyed by their token -/

/-- When the loop of `GetAllTokens` returns a slice, it is the slice it started with
followed by the records of the entries, in order. -/
theorem collectTokens_eq_ok {V : Type} (c : Codec V) (ctx : TxContext)
    (l : List (String × V)) (i : Nat) (tokens out : List FileToken)
    (h : collectTokens c ctx i l tokens = .ok out) :
    ∃ rs, out = tokens ++ rs ∧
      List.Forall₂ (fun e r => c.Unmarshal e.2 = .ok r) l rs := by
  induction l generalizing i tokens with
  | nil =>
    simp only [collectTokens] at h
    injection h with h
    exact ⟨[], by simp [h], List.Forall₂.nil⟩
  | cons e rest ih =>
    obtain ⟨k, value⟩ := e
    simp only [collectTokens] at h
    cases hnext : ctx.nextErr i with
    | some err => simp [hnext] at h
    | none =>
      cases hun : c.Unmarshal value with
      | error err => simp [hnext, hun] at h
      | ok r =>
        simp only [hnext, hun] at h
        obtain ⟨rs, hout, hall⟩ := ih (i + 1) (tokens ++ [r]) h
        exact ⟨r :: rs, by simp [hout], List.Forall₂.cons hun hall⟩

/-- C29: in every ledger reached from the empty ledger by a sequence of invocations
(whatever the stub did in them), every record is stored under its own token: a record
held or read under the key `k` has `Token = k`.  Hence the records of a `GetAllTokens`
that returns a list have pairwise distinct `Token` fields, and a record that
`GetToken(t)` returns has `Token = t`. -/
theorem records_keyed_by_token {V : Type} (c : Codec V) (hrt : c.RoundTrip)
    (calls : List (TxContext × Call)) :
    (∀ k r, Holds c (run c [] calls) k r → r.Token = k) ∧
    (∀ k r, Reads c (run c [] calls) k r → r.Token = k) ∧
    (∀ (ctx : TxContext) (rs : List FileToken),
      (GetAllTokens c ctx (run c [] calls)).2 = .ok rs →
      (rs.map (fun r => r.Token)).Nodup) ∧
    ∀ (ctx : TxContext) (t : String) (r : FileToken),
      (GetToken c ctx (run c [] calls) t).2 = .ok r → r.Token = t := by
  have hw := wellFormed_run c hrt calls [] (wellFormed_nil c)
  have hreads : ∀ k r, Reads c (run c [] calls) k r → r.Token = k :=
    fun k r h => Reads_token c hrt _ hw.2 k r h
  refine ⟨fun k r h => hreads k r (Reads_of_Holds c hrt _ k r h), hreads, ?_,
    fun ctx t r h => hreads t r (GetToken_ok c ctx _ t r h).2⟩
  intro ctx rs h
  unfold GetAllTokens at h
  cases hrange : ctx.rangeErr with
  | some err => simp [hrange] at h
  | none =>
    simp only [hrange] at h
    obtain ⟨rs', hout, hall⟩ := collectTokens_eq_ok c ctx _ 0 [] rs h
    simp only [List.nil_append] at hout
    subst hout
    have hall' : List.Forall₂
        (fun e r => e ∈ run c [] calls ∧ c.Unmarshal e.2 = .ok r) (run c [] calls) rs := by
      have hsub : ∀ l : List (String × V), (∀ e ∈ l, e ∈ run c [] calls) →
          ∀ rs' : List FileToken,
          List.Forall₂ (fun e r => c.Unmarshal e.2 = .ok r) l rs' →
          List.Forall₂ (fun e r => e ∈ run c [] calls ∧ c.Unmarshal e.2 = .ok r) l rs' := by
        intro l hl rs' h'
        induction h' with
        | nil => exact List.Forall₂.nil
        | cons hab _ ih =>
          exact List.Forall₂.cons ⟨hl _ (List.mem_cons_self _ _), hab⟩
            (ih (fun e he => hl e (List.mem_cons_of_mem _ he)))
      exact hsub _ (fun e he => he) rs hall
    have hkeys : rs.map (fun r => r.Token) = (run c [] calls).map (fun e => e.1) :=
      forall₂_map_eq (fun e => e.1) (fun r => r.Token) hall'
        (fun e r h' => hreads e.1 r ⟨e.2, getState_of_mem _ hw.1 e.1 e.2 h'.1, h'.2⟩)
    rw [hkeys]
    exact KeysSorted_nodup _ hw.1

theorem records_keyed_by_token_witness :
    (GetToken plainCodec (TxContext.healthy 9)
      (run plainCodec []
        [(TxContext.healthy 0, .RegisterToken "abc123" "report.txt" 77 "text/plain" "alice"),
         (TxContext.healthy 1, .RevokeToken "abc123" "alice")]) "abc123").2 =
      .ok (sampleToken false) ∧
    (sampleToken false).Token = "abc123" :=
  ⟨rfl, (records_keyed_by_token plainCodec plainCodec_roundTrip
    [(TxContext.healthy 0, .RegisterToken "abc123" "report.txt" 77 "text/plain" "alice"),
     (TxContext.healthy 1, .RevokeToken "abc123" "alice")]).2.2.2
    (TxContext.healthy 9) "abc123" (sampleToken false) rfl⟩

/-! ## Validation before the blob read -/

theorem retrieveHandler_cases
    (retrieveFileFromCouchDB : String → Except String (String × String × String))
    (m : World FileToken) (token : String) :
    ((getState m token = none ∨ ∃ r, getState m token = some r ∧ r.IsActive = false) ∧
      retrieveHandler retrieveFileFromCouchDB m token =
        ([], { status := 401, payload := .error "Invalid or inactive token" })) ∨
    ((∃ r, getState m token = some r ∧ r.IsActive = true) ∧
      (retrieveHandler retrieveFileFromCouchDB m token).1 = [token]) := by
  unfold retrieveHandler mapIndex
  cases hst : getState m token with
  | none => left; exact ⟨Or.inl rfl, by simp⟩
  | some r =>
    cases hact : r.IsActive with
    | false => left; exact ⟨Or.inr ⟨r, rfl, hact⟩, by simp [hact]⟩
    | true =>
      right
      refine ⟨⟨r, rfl, hact⟩, ?_⟩
      simp only [hact, Bool.not_true, Bool.or_self, Bool.false_eq_true, if_false]
      cases retrieveFileFromCouchDB token with
      | error err => rfl
      | ok v => rfl

theorem retrieveFile_cases (app : AppGateway) (token : String) :
    (validateTokenOnBlockchain app token ≠ (true, none) ∧ (retrieveFile app token).1 = [] ∧
      ((retrieveFile app token).2.status = 401 ∨ (retrieveFile app token).2.status = 500) ∧
      ∃ message, (retrieveFile app token).2.payload = .error message) ∨
    (validateTokenOnBlockchain app token = (true, none) ∧
      (retrieveFile app token).1 = [token]) := by
  unfold retrieveFile
  cases hv : validateTokenOnBlockchain app token with
  | mk valid err =>
    cases err with
    | some e => left; exact ⟨by simp, rfl, Or.inr rfl, ⟨_, rfl⟩⟩
    | none =>
      cases valid with
      | false => left; exact ⟨by simp, rfl, Or.inl rfl, ⟨_, rfl⟩⟩
      | true =>
        right
        refine ⟨rfl, ?_⟩
        simp only [Bool.not_true, Bool.false_eq_true, if_false]
        cases app.retrieveFileFromCouchDB token with
        | error e => rfl
        | ok v => rfl

/-- The contract on the chaincode answers `true` to `ValidateToken` only for a token
whose record `GetToken` returns with `IsActive = true`. -/
theorem validateTokenOnBlockchain_chaincode {V : Type} (c : Codec V) (ctx : TxContext)
    (w : World V) (encode : FileToken → String)
    (fetch : String → Except String FileRetrieveResponse) (token : String)
    (h : validateTokenOnBlockchain
      { EvaluateTransaction := chaincodeEvaluate c ctx w encode,
        retrieveFileFromCouchDB := fetch } token = (true, none)) :
    ∃ r, (GetToken c ctx w token).2 = .ok r ∧ r.IsActive = true := by
  simp only [validateTokenOnBlockchain, chaincodeEvaluate, if_true] at h
  cases hg : (GetToken c ctx w token).2 with
  | error err =>
    rw [ValidateToken_error c ctx w token err hg] at h
    simp at h
  | ok r =>
    obtain ⟨hread, hr⟩ := GetToken_ok c ctx w token r hg
    rw [ValidateToken_reads c ctx w token r hread hr] at h
    refine ⟨r, rfl, ?_⟩
    cases hact : r.IsActive with
    | true => rfl
    | false =>
      rw [hact] at h
      simp only [Bool.false_eq_true, if_false] at h
      exact absurd (congrArg Prod.fst h) (by decide)

/-- C22: in `retrieveHandler` of the web demo and in `retrieveFile` of the application,
`retrieveFileFromCouchDB` is called at most once, with the token of the request, and
only when the validation of that token returned true: in the web demo the map holds a
record with `IsActive = true`, in the application `validateTokenOnBlockchain` returned
`(true, nil)`, which on the chaincode means that `GetToken` returns a record with
`IsActive = true`.  For a token that is unregistered or revoked the web demo answers
401 without reading the blob store; when the validation is false or errs the
application answers 401 or 500 with an error text, without reading the blob store. -/
theorem blob_read_only_after_validation {V : Type}
    (retrieveFileFromCouchDB : String → Except String (String × String × String))
    (m : World FileToken) (app : AppGateway) (c : Codec V) (ctx : TxContext) (w : World V)
    (encode : FileToken → String) (fetch : String → Except String FileRetrieveResponse)
    (token : String) :
    ((retrieveHandler retrieveFileFromCouchDB m token).1 = [] ∨
      (retrieveHandler retrieveFileFromCouchDB m token).1 = [token]) ∧
    ((retrieveHandler retrieveFileFromCouchDB m token).1 ≠ [] →
      ∃ r, getState m token = some r ∧ r.IsActive = true) ∧
    ((getState m token = none ∨ ∃ r, getState m token = some r ∧ r.IsActive = false) →
      retrieveHandler retrieveFileFromCouchDB m token =
        ([], { status := 401, payload := .error "Invalid or inactive token" })) ∧
    ((retrieveFile app token).1 = [] ∨ (retrieveFile app token).1 = [token]) ∧
    ((retrieveFile app token).1 ≠ [] → validateTokenOnBlockchain app token = (true, none)) ∧
    (validateTokenOnBlockchain app token ≠ (true, none) →
      (retrieveFile app token).1 = [] ∧
      ((retrieveFile app token).2.status = 401 ∨ (retrieveFile app token).2.status = 500) ∧
      ∃ message, (retrieveFile app token).2.payload = .error message) ∧
    ((retrieveFile
        { EvaluateTransaction := chaincodeEvaluate c ctx w encode,
          retrieveFileFromCouchDB := fetch } token).1 ≠ [] →
      ∃ r, (GetToken c ctx w token).2 = .ok r ∧ r.IsActive = true) := by
  have hweb := retrieveHandler_cases retrieveFileFromCouchDB m token
  have happ := retrieveFile_cases app token
  refine ⟨?_, ?_, ?_, ?_, ?_, ?_, ?_⟩
  · rcases hweb with ⟨_, h⟩ | ⟨_, h⟩
    · left; rw [h]
    · right; exact h
  · intro hne
    rcases hweb with ⟨_, h⟩ | ⟨h, _⟩
    · rw [h] at hne; exact absurd rfl hne
    · exact h
  · intro hbad
    rcases hweb with ⟨_, h⟩ | ⟨⟨r, hr, hact⟩, _⟩
    · exact h
    · rcases hbad with hnone | ⟨r', hr', hact'⟩
      · rw [hnone] at hr; exact absurd hr (by simp)
      · rw [hr'] at hr
        injection hr with hr
        rw [hr, hact] at hact'
        exact absurd hact' (by decide)
  · rcases happ with ⟨_, h, _⟩ | ⟨_, h⟩
    · left; exact h
    · right; exact h
  · intro hne
    rcases happ with ⟨_, h, _⟩ | ⟨h, _⟩
    · exact absurd h hne
    · exact h
  · intro hbad
    rcases happ with ⟨_, h⟩ | ⟨h, _⟩
    · exact h
    · exact absurd h hbad
  · intro hne
    rcases retrieveFile_cases
        { EvaluateTransaction := chaincodeEvaluate c ctx w encode,
          retrieveFileFromCouchDB := fetch } token with ⟨_, h, _⟩ | ⟨h, _⟩
    · exact absurd h hne
    · exact validateTokenOnBlockchain_chaincode c ctx w encode fetch token h

/-! ## Token information -/

/-- C23: for a token with no record the token-info handlers answer 404: the web demo's
`tokenInfoHandler` with "Token not found", the application's `getTokenInfo` whenever
the evaluation of `GetToken` returns an error, as it does on the chaincode for a key
without a value.  For a token that has a record, active or revoked, the web demo's
`tokenInfoHandler` answers 200 with that record. -/
theorem token_info_not_found {V : Type} (m : World FileToken) (app : AppGateway)
    (c : Codec V) (ctx : TxContext) (w : World V) (encode : FileToken → String)
    (fetch : String → Except String FileRetrieveResponse) (token : String) :
    (getState m token = none →
      tokenInfoHandler m token = { status := 404, payload := .error "Token not found" }) ∧
    (∀ r, getState m token = some r →
      tokenInfoHandler m token = { status := 200, payload := .token r }) ∧
    (∀ err, app.EvaluateTransaction "GetToken" token = .error err →
      getTokenInfo app token =
        { status := 404, payload := .error ("Token not found: " ++ err) }) ∧
    (getState w token = none →
      (getTokenInfo
        { EvaluateTransaction := chaincodeEvaluate c ctx w encode,
          retrieveFileFromCouchDB := fetch } token).status = 404) := by
  refine ⟨fun h => ?_, fun r h => ?_, fun err h => ?_, fun h => ?_⟩
  · simp [tokenInfoHandler, mapIndex, h]
  · simp [tokenInfoHandler, mapIndex, h]
  · simp [getTokenInfo, h]
  · have hg : ∃ err, (GetToken c ctx w token).2 = .error err := by
      cases hread : ctx.getStateErr token with
      | some cause => exact ⟨.readFailed cause, by simp [GetToken, TxContext.GetState, hread]⟩
      | none => exact ⟨.doesNotExist token, by rw [GetToken_absent c ctx w token hread h]⟩
    obtain ⟨err, herr⟩ := hg
    simp [getTokenInfo, chaincodeEvaluate, herr]

/-! ## Lengths of hexadecimal text -/

theorem bytesOf_length_of_ascii (l : List Char) (h : ∀ ch ∈ l, ch.utf8Size = 1) :
    (bytesOf (String.mk l)).length = l.length := by
  unfold bytesOf
  induction l with
  | nil => rfl
  | cons ch rest ih =>
    have h1 : ch.utf8Size = 1 := h ch (List.mem_cons_self _ _)
    have h2 := ih (fun x hx => h x (List.mem_cons_of_mem _ hx))
    rw [List.flatMap_cons, List.length_append, h2, List.length_map,
      String.length_utf8EncodeChar, h1, List.length_cons]
    omega

theorem hextable_ascii : ∀ ch ∈ hextable, ch.utf8Size = 1 := by decide

theorem len_EncodeToString (src : List Byte) : len (EncodeToString src) = 2 * src.length := by
  have h : ∀ ch ∈ (EncodeToString src).data, ch.utf8Size = 1 :=
    fun ch hch => hextable_ascii ch (EncodeToString_hex src ch hch)
  have := bytesOf_length_of_ascii (EncodeToString src).data h
  rw [← EncodeToString_length src]
  exact this

theorem len_generateToken (Sum256 : List Byte → Digest) (content : List Byte) :
    len (generateToken Sum256 content) = 64 := by
  simp only [generateToken]
  rw [len_EncodeToString, (Sum256 content).size]

theorem len_genesis_hash : len "genesis_block_hash" = 18 :=
  bytesOf_length_of_ascii "genesis_block_hash".data (by decide)

theorem slicePrefix_isSome (s : String) (n : Nat) (h : n ≤ len s) :
    (slicePrefix s n).isSome = true := by
  simp [slicePrefix, h]

theorem slicePrefix_eq (s : String) (n : Nat) (h : n ≤ len s) :
    slicePrefix s n = some (String.mk (s.data.take n)) := by
  simp [slicePrefix, h]

theorem getState_of_mem_some {V : Type} (w : World V) (e : String × V) (h : e ∈ w) :
    ∃ v, getState w e.1 = some v := by
  induction w with
  | nil => simp at h
  | cons kv rest ih =>
    obtain ⟨k, v⟩ := kv
    by_cases hk : k = e.1
    · exact ⟨v, by simp [getState, hk]⟩
    · rcases List.mem_cons.mp h with h' | h'
      · rw [h'] at hk
        exact absurd rfl hk
      · obtain ⟨v', hv'⟩ := ih h'
        exact ⟨v', by simp [getState, hk, hv']⟩

/-! ## The simulated network of `fabric-demo.go` -/

namespace FabricDemo

theorem len_generateBlockHash (Sum256 : List Byte → Digest) (tx : FabricTransaction) :
    len (generateBlockHash Sum256 tx) = 64 := by
  simp only [generateBlockHash]
  rw [len_EncodeToString, (Sum256 _).size]

/-- One iteration of the registration loop on a network that has a last block: it
returns a network with one more block, which carries the hash of the last block, its
index, and one transaction with that index, and with one more token entry. -/
theorem registerFile_spec (Sum256 : List Byte → Digest) (network : FabricNetwork)
    (file : (String × String) × Clock) (last : BlockchainBlock)
    (hlast : network.Blocks.getLast? = some last) :
    ∃ tx block entries,
      registerFile Sum256 network file =
        some { Blocks := network.Blocks ++ [block],
               Tokens := putState network.Tokens (generateToken Sum256 (bytesOf file.1.2))
                 (.map entries) } ∧
      block.BlockNumber = (network.Blocks.length : Int) ∧
      block.PreviousHash = last.Hash ∧
      block.Transactions = [tx] ∧
      tx.BlockNumber = (network.Blocks.length : Int) ∧
      len block.Hash = 64 ∧
      getState entries "isActive" = some (.bool true) := by
  have h32 : 32 ≤ len (generateToken Sum256 (bytesOf file.1.2)) := by
    rw [len_generateToken]; omega
  have hb : ∀ tx, 32 ≤ len (generateBlockHash Sum256 tx) := by
    intro tx
    rw [len_generateBlockHash]; omega
  refine ⟨{ TxID := generateTxID Sum256 file.2.txNanos,
            Function := "RegisterToken",
            Args := [generateToken Sum256 (bytesOf file.1.2), file.1.1,
              formatInt (len file.1.2), "text/plain", "demo-user"],
            Timestamp := file.2.txTime,
            BlockNumber := network.Blocks.length,
            Status := "VALID" },
    { BlockNumber := network.Blocks.length,
      PreviousHash := last.Hash,
      Transactions :=
        [{ TxID := generateTxID Sum256 file.2.txNanos,
           Function := "RegisterToken",
           Args := [generateToken Sum256 (bytesOf file.1.2), file.1.1,
             formatInt (len file.1.2), "text/plain", "demo-user"],
           Timestamp := file.2.txTime,
           BlockNumber := network.Blocks.length,
           Status := "VALID" }],
      Timestamp := file.2.blockTime,
      Hash := generateBlockHash Sum256
        { TxID := generateTxID Sum256 file.2.txNanos,
          Function := "RegisterToken",
          Args := [generateToken Sum256 (bytesOf file.1.2), file.1.1,
            formatInt (len file.1.2), "text/plain", "demo-user"],
          Timestamp := file.2.txTime,
          BlockNumber := network.Blocks.length,
          Status := "VALID" } },
    [("fileName", .str file.1.1), ("fileSize", .int (len file.1.2)),
     ("contentType", .str "text/plain"), ("owner", .str "demo-user"),
     ("timestamp", .time file.2.tokenTime), ("isActive", .bool true),
     ("blockNumber", .int network.Blocks.length),
     ("txId", .str (generateTxID Sum256 file.2.txNanos))],
    ?_, rfl, rfl, rfl, rfl, len_generateBlockHash Sum256 _, rfl⟩
  simp only [registerFile, hlast, slicePrefix_eq _ _ h32, slicePrefix_eq _ _ (hb _)]

theorem registerFile_inv (Sum256 : List Byte → Digest) (network : FabricNetwork)
    (file : (String × String) × Clock)
    (h : Linked network.Blocks ∧ Sized network.Blocks ∧ Registered network.Tokens) :
    ∃ network', registerFile Sum256 network file = some network' ∧
      network'.Blocks.length = network.Blocks.length + 1 ∧
      Linked network'.Blocks ∧ Sized network'.Blocks ∧ Registered network'.Tokens := by
  obtain ⟨⟨⟨g, hg, hg0, hgtx, hghash⟩, hlink⟩, hsized, hreg⟩ := h
  have hpos : 0 < network.Blocks.length := by
    cases hb : network.Blocks with
    | nil => rw [hb] at hg; simp at hg
    | cons b rest => simp
  have hlast' : network.Blocks.getLast? = network.Blocks[network.Blocks.length - 1]? :=
    List.getLast?_eq_getElem? _
  have hlt : network.Blocks.length - 1 < network.Blocks.length := by omega
  obtain ⟨last, hlastmem, hlastidx⟩ :
      ∃ last, last ∈ network.Blocks ∧
        network.Blocks[network.Blocks.length - 1]? = some last :=
    ⟨network.Blocks[network.Blocks.length - 1], List.getElem_mem _,
      List.getElem?_eq_getElem hlt⟩
  have hlast : network.Blocks.getLast? = some last := by rw [hlast', hlastidx]
  obtain ⟨tx, block, entries, heq, hnum, hprev, htx, htxnum, hlen, hactive⟩ :=
    registerFile_spec Sum256 network file last hlast
  refine ⟨_, heq, by simp, ⟨⟨g, ?_, hg0, hgtx, hghash⟩, ?_⟩, ?_, ?_⟩
  · simp only
    rw [List.getElem?_append_left hpos]
    exact hg
  · intro i b b' hb hb'
    simp only at hb hb'
    by_cases hi : i + 1 < network.Blocks.length
    · rw [List.getElem?_append_left (by omega)] at hb
      rw [List.getElem?_append_left hi] at hb'
      exact hlink i b b' hb hb'
    · by_cases hi' : i + 1 = network.Blocks.length
      · have hidx : i = network.Blocks.length - 1 := by omega
        rw [List.getElem?_append_left (by omega), hidx, hlastidx] at hb
        rw [hi', List.getElem?_concat_length] at hb'
        injection hb with hb
        injection hb' with hb'
        subst hb
        subst hb'
        refine ⟨hprev, ?_, tx, htx, ?_⟩
        · rw [hnum, hi']
        · rw [htxnum, hi']
      · have hlen' : (network.Blocks ++ [block]).length ≤ i + 1 := by
          simp only [List.length_append, List.length_singleton]
          omega
        rw [List.getElem?_eq_none hlen'] at hb'
        exact absurd hb' (by simp)
  · intro b hb
    simp only at hb
    rcases List.mem_append.mp hb with hb | hb
    · exact hsized b hb
    · rw [List.mem_singleton] at hb
      subst hb
      refine ⟨by rw [hlen]; omega, fun _ => ⟨hlen, ?_⟩⟩
      rw [hprev]
      exact (hsized last hlastmem).1
  · intro e he
    simp only at he
    rcases mem_putState _ _ _ e he with he' | he'
    · rw [he']
      exact ⟨len_generateToken Sum256 _, entries, rfl, hactive⟩
    · exact hreg e he'

theorem genesis_inv (now : Int) :
    Linked (genesis now).Blocks ∧ Sized (genesis now).Blocks ∧
      Registered (genesis now).Tokens := by
  refine ⟨⟨⟨_, rfl, rfl, rfl, rfl⟩, ?_⟩, ?_, ?_⟩
  · intro i b b' _ hb'
    simp [genesis] at hb'
  · intro b hb
    simp only [genesis, List.mem_singleton] at hb
    subst hb
    refine ⟨?_, fun h => absurd rfl h⟩
    show 16 ≤ len "genesis_block_hash"
    rw [len_genesis_hash]
    omega
  · intro e he
    simp [genesis] at he

theorem registerAll_inv (Sum256 : List Byte → Digest)
    (files : List ((String × String) × Clock)) (network : FabricNetwork)
    (h : Linked network.Blocks ∧ Sized network.Blocks ∧ Registered network.Tokens) :
    ∃ network', registerAll Sum256 network files = some network' ∧
      network'.Blocks.length = network.Blocks.length + files.length ∧
      Linked network'.Blocks ∧ Sized network'.Blocks ∧ Registered network'.Tokens := by
  induction files generalizing network with
  | nil => exact ⟨network, rfl, by simp, h⟩
  | cons file rest ih =>
    obtain ⟨n1, heq, hlen, hinv⟩ := registerFile_inv Sum256 network file h
    obtain ⟨n2, heq2, hlen2, hinv2⟩ := ih n1 hinv
    refine ⟨n2, ?_, ?_, hinv2⟩
    · simp only [registerAll, heq]
      exact heq2
    · rw [hlen2, hlen, List.length_cons]
      omega

end FabricDemo

namespace FabricDemo

/-- C25: `validateToken(token, network)` returns false for a token that is not a key of
`network.Tokens`, and it returns true exactly when the entry of the token is a map
whose `isActive` value is the boolean `true`.  In every network that the registration
loop of `main` builds from the genesis network, whatever the files and the clock, the
loop does not panic, and for every key of `Tokens` the type assertion succeeds and
`validateToken` returns true. -/
theorem validateToken_registered (token : String) (network : FabricNetwork)
    (Sum256 : List Byte → Digest) (now : Int) (files : List ((String × String) × Clock)) :
    (getState network.Tokens token = none → validateToken token network = some false) ∧
    (validateToken token network = some true ↔
      ∃ entries, getState network.Tokens token = some (.map entries) ∧
        getState entries "isActive" = some (.bool true)) ∧
    ∃ built, registerAll Sum256 (genesis now) files = some built ∧
      ∀ t, getState built.Tokens t ≠ none → validateToken t built = some true := by
  refine ⟨fun h => by simp [validateToken, h], ?_, ?_⟩
  · unfold validateToken
    cases hst : getState network.Tokens token with
    | none => simp
    | some tokenData =>
      cases tokenData with
      | map entries =>
        cases hact : getState entries "isActive" with
        | none => simp [hact]
        | some v => cases v <;> simp [hact]
      | str x => simp
      | int x => simp
      | bool x => simp
      | time x => simp
      | nil => simp
  · obtain ⟨built, heq, _, _, _, hreg⟩ :=
      registerAll_inv Sum256 files (genesis now) (genesis_inv now)
    refine ⟨built, heq, fun t ht => ?_⟩
    cases hst : getState built.Tokens t with
    | none => exact absurd hst ht
    | some v =>
      obtain ⟨_, entries, hv, hactive⟩ := hreg (t, v) (mem_of_getState _ t v hst)
      simp only at hv
      subst hv
      simp [validateToken, hst, hactive]

/-- C26: the registration loop of `main`, run from the genesis network over any list of
files (so after every iteration), does not panic and leaves one block per file after
block 0; block 0 is the genesis block, with `BlockNumber` 0 and no transactions; and
for every index `i + 1` of `Blocks`, the block there has the `Hash` of block `i` as its
`PreviousHash`, `BlockNumber = i + 1`, and a single transaction, with
`BlockNumber = i + 1`. -/
theorem blocks_linked (Sum256 : List Byte → Digest) (now : Int)
    (files : List ((String × String) × Clock)) :
    ∃ network, registerAll Sum256 (genesis now) files = some network ∧
      network.Blocks.length = files.length + 1 ∧
      (∃ g, network.Blocks[0]? = some g ∧ g.BlockNumber = 0 ∧ g.Transactions = [] ∧
        g.Hash = "genesis_block_hash") ∧
      ∀ (i : Nat) (b b' : BlockchainBlock),
        network.Blocks[i]? = some b → network.Blocks[i + 1]? = some b' →
        b'.PreviousHash = b.Hash ∧ b'.BlockNumber = ((i + 1 : Nat) : Int) ∧
        ∃ tx, b'.Transactions = [tx] ∧ tx.BlockNumber = ((i + 1 : Nat) : Int) := by
  obtain ⟨network, heq, hlen, hlinked, _, _⟩ :=
    registerAll_inv Sum256 files (genesis now) (genesis_inv now)
  refine ⟨network, heq, ?_, hlinked.1, hlinked.2⟩
  rw [hlen]
  simp only [genesis, List.length_singleton]
  omega

end FabricDemo

/-! ## The registry of `demo-simple.go` -/

namespace DemoSimple

theorem registerAll_keys (Sum256 : List Byte → Digest)
    (files : List ((String × String) × Int)) :
    ∀ e ∈ registerAll Sum256 files, len e.1 = 64 := by
  have hfold : ∀ (fs : List ((String × String) × Int)) (m : World FileToken),
      (∀ e ∈ m, len e.1 = 64) → ∀ e ∈ fs.foldl (register Sum256) m, len e.1 = 64 := by
    intro fs
    induction fs with
    | nil => intro m hm; exact hm
    | cons file rest ih =>
      intro m hm
      simp only [List.foldl_cons]
      apply ih
      intro e he
      rcases mem_putState _ _ _ e he with he' | he'
      · rw [he']
        exact len_generateToken Sum256 _
      · exact hm e he'
  exact hfold files [] (fun e he => absurd he (List.not_mem_nil e))

theorem registryLines_isSome (m : World FileToken) (h : ∀ e ∈ m, len e.1 = 64) :
    (registryLines m).isSome = true := by
  induction m with
  | nil => rfl
  | cons entry rest ih =>
    have h16 : 16 ≤ len entry.1 := by
      rw [h entry (List.mem_cons_self _ _)]; omega
    have hrest := ih (fun e he => h e (List.mem_cons_of_mem _ he))
    cases hr : registryLines rest with
    | none => rw [hr] at hrest; simp at hrest
    | some lines => simp [registryLines, slicePrefix_eq _ _ h16, hr]

/-- C24: `validateToken(token, blockchainTokens)` of `demo-simple.go` returns true if
and only if the map holds a record under `token` and that record has
`IsActive = true`; for a token that is not a key it returns false (the index expression
does not panic); and in `main`, whatever the files registered, it returns false for
"invalid-token-123". -/
theorem validateToken_iff (token : String) (blockchainTokens : World FileToken) :
    (validateToken token blockchainTokens = true ↔
      ∃ r, getState blockchainTokens token = some r ∧ r.IsActive = true) ∧
    (getState blockchainTokens token = none →
      validateToken token blockchainTokens = false) ∧
    ∀ (Sum256 : List Byte → Digest) (files : List ((String × String) × Int)),
      validateToken "invalid-token-123" (registerAll Sum256 files) = false := by
  have habsent : ∀ (m : World FileToken) (t : String), getState m t = none →
      validateToken t m = false := by
    intro m t h
    simp [validateToken, mapIndex, h]
  refine ⟨?_, habsent blockchainTokens token, fun Sum256 files => ?_⟩
  · unfold validateToken mapIndex
    cases hst : getState blockchainTokens token with
    | none => simp
    | some r => simp
  · apply habsent
    cases hst : getState (registerAll Sum256 files) "invalid-token-123" with
    | none => rfl
    | some r =>
      have hlen := registerAll_keys Sum256 files _ (mem_of_getState _ _ r hst)
      have h17 : len "invalid-token-123" = 17 :=
        bytesOf_length_of_ascii "invalid-token-123".data (by decide)
      simp only at hlen
      rw [h17] at hlen
      omega

end DemoSimple

/-! ## Slices in range -/

/-- C30: in `fabric-demo.go`, the registration loop of `main` run from the genesis
network never panics (the slices `token[:32]` and `block.Hash[:32]` are in range); in
the network it builds every key of `Tokens` has 64 bytes, every block other than block
0 has a `Hash` of 64 bytes and a `PreviousHash` of at least 16 bytes, every `Hash` has
at least 16 bytes, the genesis hash has 18 bytes and is the `PreviousHash` of block 1,
and the slices of the loops "BLOCKCHAIN STRUCTURE" and of the validation loop are in
range for every block and every key.  In `demo-simple.go`, every key of
`blockchainTokens` has 64 bytes and the slices `token[:16]` of the last loop are in
range. -/
theorem slices_in_range (Sum256 : List Byte → Digest) (now : Int)
    (files : List ((String × String) × FabricDemo.Clock))
    (simpleFiles : List ((String × String) × Int)) :
    (∃ network, FabricDemo.registerAll Sum256 (FabricDemo.genesis now) files = some network ∧
      (∀ e ∈ network.Tokens, len e.1 = 64) ∧
      (∀ b ∈ network.Blocks, b.BlockNumber ≠ 0 →
        len b.Hash = 64 ∧ 16 ≤ len b.PreviousHash) ∧
      (∀ b ∈ network.Blocks, 16 ≤ len b.Hash) ∧
      (∀ b, network.Blocks[1]? = some b → b.PreviousHash = "genesis_block_hash") ∧
      (∀ b ∈ network.Blocks, (FabricDemo.blockLine b).isSome = true) ∧
      (∀ e ∈ network.Tokens, (FabricDemo.validationLine network e.1).isSome = true)) ∧
    len "genesis_block_hash" = 18 ∧
    (∀ e ∈ DemoSimple.registerAll Sum256 simpleFiles, len e.1 = 64) ∧
    (DemoSimple.registryLines (DemoSimple.registerAll Sum256 simpleFiles)).isSome = true := by
  obtain ⟨network, heq, _, hlinked, hsized, hreg⟩ :=
    FabricDemo.registerAll_inv Sum256 files (FabricDemo.genesis now)
      (FabricDemo.genesis_inv now)
  refine ⟨⟨network, heq, fun e he => (hreg e he).1, fun b hb hne => (hsized b hb).2 hne,
    fun b hb => (hsized b hb).1, ?_, ?_, ?_⟩, len_genesis_hash,
    DemoSimple.registerAll_keys Sum256 simpleFiles,
    DemoSimple.registryLines_isSome _ (DemoSimple.registerAll_keys Sum256 simpleFiles)⟩
  · intro b hb
    obtain ⟨g, hg, _, _, hghash⟩ := hlinked.1
    rw [(hlinked.2 0 g b hg hb).1, hghash]
  · intro b hb
    have h16 := (hsized b hb).1
    unfold FabricDemo.blockLine
    by_cases h0 : b.BlockNumber = 0
    · simp [h0, slicePrefix_eq _ _ h16]
    · have hprev := ((hsized b hb).2 h0).2
      simp [h0, slicePrefix_eq _ _ h16, slicePrefix_eq _ _ hprev]
  · intro e he
    have h32 : 32 ≤ len e.1 := by rw [(hreg e he).1]; omega
    obtain ⟨v, hv⟩ := getState_of_mem_some network.Tokens e he
    obtain ⟨_, entries, hmap, hactive⟩ := hreg (e.1, v) (mem_of_getState _ _ v hv)
    simp only at hmap
    subst hmap
    simp [FabricDemo.validationLine, slicePrefix_eq _ _ h32, FabricDemo.validateToken, hv,
      hactive]

/-! ## The doctor access demo -/

namespace DoctorDemo

theorem hasPermission_cons (now : Int) (token : String) (perm : DoctorPermission)
    (rest : List DoctorPermission) :
    hasPermission now token (perm :: rest) =
      if perm.FileToken = token && perm.IsActive && decide (now < perm.ExpiresAt) then true
      else hasPermission now token rest := rfl

theorem hasPermission_iff (now : Int) (token : String) (permissions : List DoctorPermission) :
    hasPermission now token permissions = true ↔
      ∃ perm ∈ permissions, perm.FileToken = token ∧ perm.IsActive = true ∧
        now < perm.ExpiresAt := by
  induction permissions with
  | nil => simp [hasPermission]
  | cons perm rest ih =>
    by_cases h : perm.FileToken = token ∧ perm.IsActive = true ∧ now < perm.ExpiresAt
    · have hcond : (perm.FileToken = token && perm.IsActive &&
          decide (now < perm.ExpiresAt)) = true := by
        simp [h.1, h.2.1, h.2.2]
      rw [hasPermission_cons, if_pos hcond]
      simp only [true_iff]
      exact ⟨perm, List.mem_cons_self _ _, h⟩
    · have hcond : ¬ (perm.FileToken = token && perm.IsActive &&
          decide (now < perm.ExpiresAt)) = true := by
        intro hc
        simp only [Bool.and_eq_true, decide_eq_true_eq] at hc
        exact h ⟨hc.1.1, hc.1.2, hc.2⟩
      rw [hasPermission_cons, if_neg hcond, ih]
      constructor
      · rintro ⟨p, hp, hp'⟩
        exact ⟨p, List.mem_cons_of_mem _ hp, hp'⟩
      · rintro ⟨p, hp, hp'⟩
        rcases List.mem_cons.mp hp with hp | hp
        · subst hp
          exact absurd hp' h
        · exact ⟨p, hp, hp'⟩

theorem filterActive_cons (now : Int) (activeFiles : List DoctorPermission)
    (perm : DoctorPermission) (rest : List DoctorPermission) :
    filterActive now activeFiles (perm :: rest) =
      if perm.IsActive && decide (now < perm.ExpiresAt) then
        filterActive now (activeFiles ++ [perm]) rest
      else filterActive now activeFiles rest := rfl

theorem filterActive_eq (now : Int) (activeFiles permissions : List DoctorPermission) :
    filterActive now activeFiles permissions =
      activeFiles ++
        permissions.filter (fun perm => perm.IsActive && decide (now < perm.ExpiresAt)) := by
  induction permissions generalizing activeFiles with
  | nil => simp [filterActive]
  | cons perm rest ih =>
    by_cases h : (perm.IsActive && decide (now < perm.ExpiresAt)) = true
    · rw [filterActive_cons, if_pos h, ih]
      simp [List.filter_cons, h]
    · rw [filterActive_cons, if_neg h, ih]
      simp [List.filter_cons, h]

/-- C27: `accessFile`, for a request of `doctorId` and `token` at time `now`, answers
200 if and only if `doctorPermissions` has an entry for `doctorId` that contains a
permission with `FileToken = token`, `IsActive = true` and `now` strictly before
`ExpiresAt`; it answers 401 when `doctorId` has no entry, and 403 when the entry has no
such permission. -/
theorem accessFile_grants (permissionsOf : World (List DoctorPermission)) (now : Int)
    (request : AccessRequest) :
    ((accessFile permissionsOf now request).1 = 200 ↔
      ∃ permissions perm, getState permissionsOf request.DoctorID = some permissions ∧
        perm ∈ permissions ∧ perm.FileToken = request.Token ∧ perm.IsActive = true ∧
        now < perm.ExpiresAt) ∧
    (getState permissionsOf request.DoctorID = none →
      accessFile permissionsOf now request = (401, .error "Doctor not authorized")) ∧
    (∀ permissions, getState permissionsOf request.DoctorID = some permissions →
      (¬ ∃ perm ∈ permissions, perm.FileToken = request.Token ∧ perm.IsActive = true ∧
        now < perm.ExpiresAt) →
      accessFile permissionsOf now request =
        (403, .error "Access denied: No valid permission for this file")) ∧
    (∀ permissions, getState permissionsOf request.DoctorID = some permissions →
      (∃ perm ∈ permissions, perm.FileToken = request.Token ∧ perm.IsActive = true ∧
        now < perm.ExpiresAt) →
      accessFile permissionsOf now request =
        (200, .granted "File access granted and logged on blockchain" request.FileName now
          "Access recorded on Hyperledger Fabric")) := by
  have hno : ∀ permissions, getState permissionsOf request.DoctorID = some permissions →
      (¬ ∃ perm ∈ permissions, perm.FileToken = request.Token ∧ perm.IsActive = true ∧
        now < perm.ExpiresAt) →
      accessFile permissionsOf now request =
        (403, .error "Access denied: No valid permission for this file") := by
    intro permissions hst hnot
    have hp : hasPermission now request.Token permissions = false := by
      cases hh : hasPermission now request.Token permissions with
      | false => rfl
      | true => exact absurd ((hasPermission_iff now request.Token permissions).mp hh) hnot
    simp [accessFile, hst, hp]
  have hyes : ∀ permissions, getState permissionsOf request.DoctorID = some permissions →
      (∃ perm ∈ permissions, perm.FileToken = request.Token ∧ perm.IsActive = true ∧
        now < perm.ExpiresAt) →
      accessFile permissionsOf now request =
        (200, .granted "File access granted and logged on blockchain" request.FileName now
          "Access recorded on Hyperledger Fabric") := by
    intro permissions hst hex
    have hp := (hasPermission_iff now request.Token permissions).mpr hex
    simp [accessFile, hst, hp]
  have hnone : getState permissionsOf request.DoctorID = none →
      accessFile permissionsOf now request = (401, .error "Doctor not authorized") := by
    intro hst
    simp [accessFile, hst]
  refine ⟨?_, hnone, hno, hyes⟩
  constructor
  · intro h200
    cases hst : getState permissionsOf request.DoctorID with
    | none =>
      rw [hnone hst] at h200
      simp at h200
    | some permissions =>
      by_cases hex : ∃ perm ∈ permissions, perm.FileToken = request.Token ∧
          perm.IsActive = true ∧ now < perm.ExpiresAt
      · obtain ⟨perm, hmem, hp⟩ := hex
        exact ⟨permissions, perm, rfl, hmem, hp⟩
      · rw [hno permissions hst hex] at h200
        simp at h200
  · rintro ⟨permissions, perm, hst, hmem, hp⟩
    rw [hyes permissions hst ⟨perm, hmem, hp⟩]

/-- C28: for a `doctorId` that has an entry in `doctorPermissions`, `getDoctorFiles` at
time `now` answers 200 with exactly the permissions of that entry that have
`IsActive = true` and `now` strictly before `ExpiresAt`, in their original order, and
with `count` equal to their number; and for every file it lists, `accessFile` for the
same doctor with the token of that file, at the same time, answers 200. -/
theorem getDoctorFiles_lists (permissionsOf : World (List DoctorPermission)) (now : Int)
    (doctorID : String) (permissions : List DoctorPermission)
    (hentry : getState permissionsOf doctorID = some permissions) :
    getDoctorFiles permissionsOf now doctorID =
      (200, .files
        (permissions.filter (fun perm => perm.IsActive && decide (now < perm.ExpiresAt)))
        (permissions.filter
          (fun perm => perm.IsActive && decide (now < perm.ExpiresAt))).length) ∧
    (∀ perm, perm ∈
        permissions.filter (fun perm => perm.IsActive && decide (now < perm.ExpiresAt)) ↔
      perm ∈ permissions ∧ perm.IsActive = true ∧ now < perm.ExpiresAt) ∧
    (permissions.filter
      (fun perm => perm.IsActive && decide (now < perm.ExpiresAt))).Sublist permissions ∧
    ∀ perm ∈ permissions.filter (fun perm => perm.IsActive && decide (now < perm.ExpiresAt)),
      ∀ fileName : String,
        (accessFile permissionsOf now
          { DoctorID := doctorID, Token := perm.FileToken, FileName := fileName }).1 =
          200 := by
  have hmem : ∀ perm, perm ∈
        permissions.filter (fun perm => perm.IsActive && decide (now < perm.ExpiresAt)) ↔
      perm ∈ permissions ∧ perm.IsActive = true ∧ now < perm.ExpiresAt := by
    intro perm
    simp [List.mem_filter]
  refine ⟨?_, hmem, List.filter_sublist _, fun perm hperm fileName => ?_⟩
  · simp [getDoctorFiles, hentry, filterActive_eq]
  · obtain ⟨hin, hact, hexp⟩ := (hmem perm).mp hperm
    have hp : hasPermission now perm.FileToken permissions = true :=
      (hasPermission_iff now perm.FileToken permissions).mpr ⟨perm, hin, rfl, hact, hexp⟩
    simp [accessFile, hentry, hp]

theorem getDoctorFiles_lists_witness :
    getState (doctorPermissions 0) "DR002" =
      some [{ PatientID := "PAT003", DoctorID := "DR002",
              FileToken := "91184b21d74a30ccb617394a12e1559ef3aed447f4ec0d39b6f4c36f7f49457b",
              FileName := "brain_scan.txt", GrantedAt := 0 + -3 * Hour,
              ExpiresAt := 0 + 30 * 24 * Hour, IsActive := true }] ∧
    (getDoctorFiles (doctorPermissions 0) 5 "DR002").1 = 200 ∧
    (getDoctorFiles (doctorPermissions 0) (31 * 24 * Hour) "DR002") = (200, .files [] 0) :=
  ⟨by decide, congrArg Prod.fst (getDoctorFiles_lists (doctorPermissions 0) 5 "DR002"
    [{ PatientID := "PAT003", DoctorID := "DR002",
       FileToken := "91184b21d74a30ccb617394a12e1559ef3aed447f4ec0d39b6f4c36f7f49457b",
       FileName := "brain_scan.txt", GrantedAt := 0 + -3 * Hour,
       ExpiresAt := 0 + 30 * 24 * Hour, IsActive := true }]
    (by decide)).1, by decide⟩

/-- The handlers on the permissions of the program, initialised at time 0: doctor DR001
is granted the first file one hour later, refused it after 31 days and refused another
doctor's file, and an unknown doctor gets 401. -/
theorem accessFile_examples :
    (accessFile (doctorPermissions 0) Hour
      { DoctorID := "DR001",
        Token := "bcc2fbf8d2a90755172a56380b34d8b9f5208ae06a366b190147d7938238efe5",
        FileName := "cardiac_report.txt" }).1 = 200 ∧
    (accessFile (doctorPermissions 0) (31 * 24 * Hour)
      { DoctorID := "DR001",
        Token := "bcc2fbf8d2a90755172a56380b34d8b9f5208ae06a366b190147d7938238efe5",
        FileName := "cardiac_report.txt" }).1 = 403 ∧
    (accessFile (doctorPermissions 0) Hour
      { DoctorID := "DR001",
        Token := "91184b21d74a30ccb617394a12e1559ef3aed447f4ec0d39b6f4c36f7f49457b",
        FileName := "brain_scan.txt" }).1 = 403 ∧
    (accessFile (doctorPermissions 0) Hour
      { DoctorID := "DR003", Token := "", FileName := "" }).1 = 401 := by
  decide

end DoctorDemo

end FedShield
